import Mathlib

/-!
Shallow embedding of the HPC Desktop Launcher core (`launcher.py`).

Modelling conventions:

* POSIX path strings are read as lists of path segments.  An absolute
  path such as `/a/b` is modelled by the segment list `["a", "b"]`; the
  glue functions `segments` / `isAbsStr` translate the raw strings found
  in descriptors into this representation (splitting on `'/'` and
  dropping empty components, exactly as `posixpath` normalisation
  collapses duplicate and trailing slashes).
* `os.path.abspath` / `posixpath.normpath` on an absolute input is the
  function `normalize` below (drops `"."` and empty components, lets
  `".."` consume the previous component, as `normpath` does at the root).
* The filesystem is a finite association list of absolute file paths to
  contents plus a list of existing directories.  `json.dump` followed by
  `json.load` of the same file returns the dumped value, so file
  contents are modelled as either raw text, a parsed JSON value, or an
  unparseable blob (`FileContent.invalid`).
* Python dictionaries (JSON objects, descriptors, history entries) are
  association lists with string keys; `dict.get` is `List.lookup`.
* Fallible foreign operations (`subprocess.Popen`, plugin module
  execution, file writes) are driven by explicit oracles so that the
  `try`/`except` structure of the source is visible in the embedding.
-/

namespace HPCLauncher

/-- JSON values as produced by `json.load` (Python objects restricted to
what JSON can denote; object keys are strings, insertion order kept). -/
inductive JVal where
  | str : String → JVal
  | num : Int → JVal
  | bool : Bool → JVal
  | null : JVal
  | arr : List JVal → JVal
  | obj : List (String × JVal) → JVal

/-- Contents of a file in the modelled filesystem: raw text, a value
that `json.load` would return, or an unparseable blob. -/
inductive FileContent where
  | text : String → FileContent
  | json : JVal → FileContent
  | invalid : FileContent

/-- A finite filesystem: files (absolute segment-list path to content)
and existing directories. -/
structure FS where
  files : List (List String × FileContent)
  dirs : List (List String)

/-- `open(p)` succeeds and yields the content: first binding wins, as in
a real filesystem where paths are unique keys. -/
def FS.read (fs : FS) (p : List String) : Option FileContent :=
  fs.files.lookup p

/-- `os.path.isfile`. -/
def FS.isFile (fs : FS) (p : List String) : Bool :=
  (fs.read p).isSome

/-- `os.path.isdir`. -/
def FS.isDir (fs : FS) (p : List String) : Bool :=
  decide (p ∈ fs.dirs)

/-- `os.path.exists`. -/
def FS.pathExists (fs : FS) (p : List String) : Bool :=
  fs.isFile p || fs.isDir p

/-- `open(p, "w")` followed by a successful write: truncates any
previous file at `p` and stores the new content. -/
def FS.write (fs : FS) (p : List String) (c : FileContent) : FS :=
  { fs with files := fs.files.filter (fun e => decide (e.1 ≠ p)) ++ [(p, c)] }

/-- `os.makedirs(d, exist_ok=True)`. -/
def FS.mkdir (fs : FS) (d : List String) : FS :=
  if d ∈ fs.dirs then fs else { fs with dirs := fs.dirs ++ [d] }

/-- Split a character list at `'/'` (auxiliary for reading path strings
as segment lists).  Always returns a non-empty list of chunks. -/
def splitSegs : List Char → List (List Char)
  | [] => [[]]
  | c :: cs =>
    if c = '/' then [] :: splitSegs cs
    else
      match splitSegs cs with
      | [] => [[c]]
      | s :: rest => (c :: s) :: rest

/-- The path segments denoted by a raw path string: split on `'/'` and
drop empty components (so `"a//b/"` and `"a/b"` denote the same path,
as under `posixpath` normalisation). -/
def segments (s : String) : List String :=
  ((splitSegs s.data).map (fun cs => String.mk cs)).filter (fun t => decide (t ≠ ""))

/-- `os.path.isabs` on POSIX: the string starts with `'/'`. -/
def isAbsStr (s : String) : Bool :=
  match s.data with
  | [] => false
  | c :: _ => c = '/'

/-- `posixpath` normalisation of an absolute path given as segments:
empty and `"."` components vanish, `".."` consumes the previous
component (and is dropped at the root, as `normpath("/..") = "/"`). -/
def normalize (p : List String) : List String :=
  p.foldl
    (fun acc seg =>
      if seg = "" then acc
      else if seg = "." then acc
      else if seg = ".." then acc.dropLast
      else acc ++ [seg]) []

/-- `resolve_icon_path(base_path, icon_value)` from `launcher.py`
(the Path Resolver; the same policy is used for icons, plugin files and
script files).  `None` or `""` resolve to nothing; an absolute value is
returned unchanged when it names an existing file; a relative value is
joined to `base_path`, made absolute, and returned when that names an
existing file; everything else resolves to nothing. -/
def resolve_icon_path (fs : FS) (base_path : List String) (icon_value : Option String) :
    Option (List String) :=
  match icon_value with
  | none => none
  | some v =>
    if v = "" then none
    else if isAbsStr v then
      if fs.isFile (normalize (segments v)) then some (segments v) else none
    else
      let abs_candidate := normalize (base_path ++ segments v)
      if fs.isFile abs_candidate then some abs_candidate else none

/-- `entry.lower().endswith(".json")` — the case-insensitive extension
test of `find_object_files`, done on the character list (`Char.toLower`
lowercases the ASCII range, which is all an extension test needs). -/
def endsWithJson (e : String) : Bool :=
  List.isSuffixOf ".json".data (e.data.map Char.toLower)

/-- Lexicographic comparison of character lists by Unicode code point,
the order Python's `sorted` applies to strings. -/
def charListLe : List Char → List Char → Bool
  | [], _ => true
  | _ :: _, [] => false
  | a :: as, b :: bs =>
    if a.toNat < b.toNat then true
    else if b.toNat < a.toNat then false
    else charListLe as bs

/-- Python's `s1 <= s2` on strings. -/
def strLe (a b : String) : Bool :=
  charListLe a.data b.data

/-- Insert a string into a `strLe`-sorted list, keeping it sorted. -/
def insertSorted (x : String) : List String → List String
  | [] => [x]
  | y :: ys => if strLe x y then x :: y :: ys else y :: insertSorted x ys

/-- `sorted` on a list of strings.  Any correct sort agrees with
Python's here: the strings are themselves the sort keys and `strLe` is
a total antisymmetric order, so the sorted permutation is unique. -/
def sortStrings : List String → List String
  | [] => []
  | x :: xs => insertSorted x (sortStrings xs)

/-- `os.listdir`: the names of the immediate children (files and
directories) of `d`. -/
def FS.listdir (fs : FS) (d : List String) : List String :=
  (fs.files.map Prod.fst ++ fs.dirs).filterMap (fun p =>
    if p.length = d.length + 1 ∧ p.take d.length = d then p.getLast? else none)

/-- `find_object_files(base_path)` from `launcher.py`: all `*.json`
entries (case-insensitive extension test) of the directory, absent
directories giving `[]`, joined to the directory and sorted.  The
source sorts the full path strings `base_path + "/" + entry`; those all
share the common prefix `base_path + "/"`, so lexicographic order on
the joined strings coincides with lexicographic order on the entry
names, which are sorted here before joining. -/
def find_object_files (fs : FS) (base_path : List String) : List (List String) :=
  if fs.isDir base_path = false then []
  else
    let entries := (fs.listdir base_path).filter (fun e => endsWithJson e)
    (sortStrings entries).map (fun e => base_path ++ [e])

/-- `load_object_descriptor(json_path)` from `launcher.py`: the parsed
JSON object, or nothing when the file is missing, unreadable, fails to
parse, or does not hold an object at top level. -/
def load_object_descriptor (fs : FS) (json_path : List String) :
    Option (List (String × JVal)) :=
  match fs.read json_path with
  | some (.json (.obj kvs)) => some kvs
  | _ => none

/-- The scan loop of `populate_objects`: every object file of the
directory together with its descriptor, silently skipping files whose
descriptor fails to load. -/
def scan (fs : FS) (base_path : List String) :
    List (List String × List (String × JVal)) :=
  (find_object_files fs base_path).filterMap (fun p =>
    (load_object_descriptor fs p).map (fun d => (p, d)))

/-- Length of the longest common prefix of two segment lists (the
common-prefix computation inside `os.path.relpath`). -/
def commonPrefixLen : List String → List String → Nat
  | a :: as, b :: bs => if a = b then commonPrefixLen as bs + 1 else 0
  | _, _ => 0

/-- `os.path.relpath(path, start)` on absolute segment lists: climb out
of the unshared part of `start` with `".."` components, then descend
into the unshared part of `path`; equal paths give `["."]` (Python
returns `os.curdir`). -/
def relpath (path start : List String) : List String :=
  let common := commonPrefixLen path start
  let rel := List.replicate (start.length - common) ".." ++ path.drop common
  if rel = [] then ["."] else rel

/-- The accumulation loop of `update_breadcrumbs`: one crumb per
segment, each crumb's path extending the accumulator by its segment. -/
def crumbs : List String → List String → List (String × List String)
  | _, [] => []
  | accum, part :: rest =>
    (part, accum ++ [part]) :: crumbs (accum ++ [part]) rest

/-- The trail computed by `update_breadcrumbs`: always a leading
`("Home", root)` crumb; nothing more when the current base equals the
root; otherwise one crumb per non-empty segment of the relative path
from the root to the current base.  (`os.path.relpath` cannot fail on
POSIX absolute paths, so the `except` fallback branch of the source is
unreachable and not modelled.) -/
def update_breadcrumbs (base_path root_base_path : List String) :
    List (String × List String) :=
  if normalize base_path = normalize root_base_path then [("Home", root_base_path)]
  else
    let rel := relpath (normalize base_path) (normalize root_base_path)
    if rel = ["."] then [("Home", root_base_path)]
    else ("Home", root_base_path) :: crumbs root_base_path (rel.filter (fun p => decide (p ≠ "")))

/-- The mutable state of `LauncherWindow` that the core operations
touch: current base, fixed root, retained plugin UI handles, and the
breadcrumb trail currently shown. -/
structure LauncherState where
  base_path : List String
  root_base_path : List String
  child_windows : List Nat
  breadcrumbs : List (String × List String)
deriving DecidableEq

/-- `change_base_path(new_base_path)`: make the new base absolute and
store it, rescan the directory (the returned list is the rescan that
`populate_objects` performs), and recompute the breadcrumb trail. -/
def change_base_path (fs : FS) (st : LauncherState) (new_base_path : List String) :
    LauncherState × List (List String × List (String × JVal)) :=
  let b := normalize new_base_path
  ({ st with
      base_path := b,
      breadcrumbs := update_breadcrumbs b st.root_base_path },
   scan fs b)

/-- Behaviour of one plugin invocation, supplied as an oracle: whether
the module import raises, whether a callable `create_window` attribute
exists, and what calling the factory does (raise, return `None`, or
return a window handle). -/
structure PluginBehavior where
  loadResult : Except Unit Unit
  hasFactory : Bool
  callResult : Except Unit (Option Nat)

/-- `run_python_plugin(plugin_file, context)`: import errors and factory
errors are caught (`Except.ok` with the state unchanged); only a
successful factory call returning a window appends it to
`child_windows`.  The `Except` result records whether an exception
escapes to the caller (it never does: every failing path is wrapped in
a `try`/`except` in the source). -/
def run_python_plugin (st : LauncherState) (pb : PluginBehavior) :
    Except Unit LauncherState :=
  match pb.loadResult with
  | .error _ => .ok st
  | .ok _ =>
    if pb.hasFactory = false then .ok st
    else
      match pb.callResult with
      | .error _ => .ok st
      | .ok none => .ok st
      | .ok (some w) => .ok { st with child_windows := st.child_windows ++ [w] }

/-- Observable outcome of one `execute_openaction` dispatch: the state
afterwards, the rescan performed when navigation happened, the script
handed to `subprocess.Popen` when one was started, and whether a plugin
invocation took place. -/
structure DispatchResult where
  state : LauncherState
  rescan : Option (List (List String × List (String × JVal)))
  launched : Option (List String)
  pluginInvoked : Bool

/-- The do-nothing outcome: state unchanged, no rescan, no process, no
plugin. -/
def noDispatch (st : LauncherState) : DispatchResult :=
  ⟨st, none, none, false⟩

/-- `execute_openaction(descriptor, json_path)` from `launcher.py`.
The oracle `pb` drives the plugin invocation, `popenResult` whether
`subprocess.Popen` raises (the source catches it and does nothing).
The `Except` layer records an exception escaping to the caller. -/
def execute_openaction (fs : FS) (st : LauncherState)
    (descriptor : List (String × JVal)) (pb : PluginBehavior)
    (popenResult : Except Unit Unit) : Except Unit DispatchResult :=
  match descriptor.lookup "openaction" with
  | some (.obj oa) =>
    match oa.lookup "arg0" with
    | some (.str arg0) =>
      if arg0 = "" then .ok (noDispatch st)
      else
        match oa.lookup "command" with
        | some (.str c) =>
          if c = "path" then
            let new_base :=
              if isAbsStr arg0 then segments arg0
              else normalize (st.base_path ++ segments arg0)
            if fs.isDir (normalize new_base) then
              let r := change_base_path fs st new_base
              .ok ⟨r.1, some r.2, none, false⟩
            else .ok (noDispatch st)
          else if c = "python" then
            let plugin_path :=
              if isAbsStr arg0 then segments arg0
              else normalize (st.base_path ++ segments arg0)
            if fs.isFile (normalize plugin_path) then
              match run_python_plugin st pb with
              | .ok st' => .ok ⟨st', none, none, true⟩
              | .error e => .error e
            else .ok (noDispatch st)
          else if c = "shell" then
            let script_path :=
              if isAbsStr arg0 then segments arg0
              else normalize (st.base_path ++ segments arg0)
            if fs.isFile (normalize script_path) then
              match popenResult with
              | .ok _ => .ok ⟨st, none, some script_path, false⟩
              | .error _ => .ok (noDispatch st)
            else .ok (noDispatch st)
          else .ok (noDispatch st)
        | _ => .ok (noDispatch st)
    | _ => .ok (noDispatch st)
  | _ => .ok (noDispatch st)

/-- Python `str.strip()` truthiness test used by `record_history`: the
script text is non-blank, i.e. holds at least one non-whitespace
character. -/
def nonBlank (s : String) : Bool :=
  s.data.any (fun c => !c.isWhitespace)

/-- `record_history` writes the script text, appending a final newline
when one is missing (`replay_script.endswith("\n")` is: the last
character is a newline). -/
def ensureNL (s : String) : String :=
  if s.data.getLast? = some '\n' then s else s ++ "\n"

/-- The candidate filename stem tried at probe index `k`: the timestamp
itself at `k = 0`, then `f"{timestamp}-{counter}"` for `counter =
1, 2, …` (`Nat.repr` is the decimal rendering `str` performs). -/
def stemName (ts : String) : Nat → String
  | 0 => ts
  | k + 1 => ts ++ "-" ++ Nat.repr (k + 1)

/-- The descriptor path probed at index `k` by the collision loop. -/
def candJson (history_dir : List String) (ts : String) (k : Nat) : List String :=
  history_dir ++ [stemName ts k ++ ".json"]

/-- The `while os.path.exists(target_path)` probe: starting at index
`k`, return the first index whose descriptor path does not exist.  The
loop of the source is unbounded; here it carries fuel, and
`record_history` passes one more than the number of filesystem entries,
which `chooseStem_spec` proves is always enough. -/
def firstFreeIdx (fs : FS) (history_dir : List String) (ts : String) :
    Nat → Nat → Nat
  | 0, k => k
  | fuel + 1, k =>
    if fs.pathExists (candJson history_dir ts k) then
      firstFreeIdx fs history_dir ts fuel (k + 1)
    else k

/-- The probe index at which `record_history`'s collision loop stops
for timestamp `ts` against the current filesystem. -/
def chosenIdx (fs : FS) (history_dir : List String) (ts : String) : Nat :=
  firstFreeIdx fs history_dir ts (fs.files.length + fs.dirs.length + 1) 0

/-- The collision-free stem chosen by `record_history` for timestamp
`ts` against the current filesystem. -/
def chooseStem (fs : FS) (history_dir : List String) (ts : String) : String :=
  stemName ts (chosenIdx fs history_dir ts)

/-- `html.escape` with its default `quote=True`. -/
def htmlEscape (s : String) : String :=
  s.data.foldl
    (fun acc c =>
      acc ++ (if c = '&' then "&amp;"
              else if c = '<' then "&lt;"
              else if c = '>' then "&gt;"
              else if c = '"' then "&quot;"
              else if c = '\'' then "&#x27;"
              else String.mk [c])) ""

/-- Python `str()` of a JSON-shaped value, as applied to the keys and
values of `entry.options`.  Keys and values coming from the plugin are
strings, for which `str` is the identity; the rendering of container
values (which no claim inspects) is abbreviated. -/
def pyStr : JVal → String
  | .str s => s
  | .num n => n.repr
  | .bool b => if b then "True" else "False"
  | .null => "None"
  | .arr _ => "<list>"
  | .obj _ => "<dict>"

/-- The detail page text written at `<stem>.html`: the title escaped,
and when `entry.options` is a non-empty mapping, its entries as an
HTML-escaped key/value list. -/
def history_html (title : String) (options : Option JVal) : String :=
  let head :=
    ["<!DOCTYPE html>", "<html>", "  <head>", "    <meta charset=\"utf-8\">",
     "    <title>" ++ htmlEscape title ++ "</title>", "  </head>", "  <body>",
     "    <h2>" ++ htmlEscape title ++ "</h2>"]
  let opts :=
    match options with
    | some (.obj kvs) =>
      if kvs.isEmpty then []
      else
        ["    <h3>Launch Options</h3>", "    <ul>"] ++
        kvs.map (fun kv =>
          "      <li><strong>" ++ htmlEscape (pyStr (.str kv.1)) ++ ":</strong> " ++
            htmlEscape (pyStr kv.2) ++ "</li>") ++
        ["    </ul>"]
    | _ => []
  String.intercalate "\n" (head ++ opts ++ ["  </body>", "</html>"])

/-- The descriptor payload `record_history` dumps into `<stem>.json`:
always `title`, `icon`, `details: "<stem>.html"`, plus the `openaction`
replay block exactly when the script file was written. -/
def history_descriptor (title icon stem : String) (withOpen : Bool) :
    List (String × JVal) :=
  [("title", .str title), ("icon", .str icon), ("details", .str (stem ++ ".html"))] ++
  (if withOpen then
      [("openaction", .obj [("command", .str "shell"), ("arg0", .str (stem ++ ".sh"))])]
    else [])

/-- Which write operations of one `record_history` call succeed.  A
`false` component means the corresponding filesystem call raises
`OSError`; the source catches the script-write and page-write failures
locally and the remaining ones in its outer blanket `except`. -/
structure WriteOracle where
  mkdirOk : Bool
  shWriteOk : Bool
  jsonWriteOk : Bool
  htmlWriteOk : Bool

/-- The script text the entry asks to be replayed: present exactly when
`entry["replay_shell_script"]` is a non-blank string. -/
def scriptContent (entry : List (String × JVal)) : Option String :=
  match entry.lookup "replay_shell_script" with
  | some (.str s) => if nonBlank s then some (ensureNL s) else none
  | _ => none

/-- Step 3 of `record_history`: write the replay script when the entry
provides one and the write succeeds; a failed write is caught and
ignored, leaving `wrote_shell = false` (the `chmod` to `0o755` is not
observable in this model and not tracked). -/
def writeScriptStep (fs : FS) (sh_path : List String) (content : Option String)
    (ok : Bool) : FS × Bool :=
  match content with
  | some s => if ok then (fs.write sh_path (.text s), true) else (fs, false)
  | none => (fs, false)

/-- `record_history(entry)` from `launcher.py`, against the history
directory `<root>/History`.  `ts` is the `YYYYMMDD-HHMMSS` timestamp
`datetime.now` renders; `eff` says which writes succeed.  A missing or
non-string `title`/`icon` and a failing `makedirs` are silent no-ops; a
failing script write is ignored; a failing descriptor write aborts the
page write (outer blanket `except`); a failing page write is ignored. -/
def record_history (fs : FS) (root_base_path : List String)
    (entry : List (String × JVal)) (ts : String) (eff : WriteOracle) : FS :=
  match entry.lookup "title", entry.lookup "icon" with
  | some (.str title), some (.str icon) =>
    if eff.mkdirOk = false then fs
    else
      let history_dir := root_base_path ++ ["History"]
      let fs1 := fs.mkdir history_dir
      let stem := chooseStem fs1 history_dir ts
      let sh_path := history_dir ++ [stem ++ ".sh"]
      let step3 := writeScriptStep fs1 sh_path (scriptContent entry) eff.shWriteOk
      let fs2 := step3.1
      let wrote_shell := step3.2
      if eff.jsonWriteOk = false then fs2
      else
        let payload := history_descriptor title icon stem (wrote_shell && fs2.isFile sh_path)
        let fs3 := fs2.write (history_dir ++ [stem ++ ".json"]) (.json (.obj payload))
        if eff.htmlWriteOk = false then fs3
        else fs3.write (history_dir ++ [stem ++ ".html"])
          (.text (history_html title (entry.lookup "options")))
  | _, _ => fs

/-- The history directory `<root_base_path>/History` that
`record_history` writes into. -/
def historyDir (root_base_path : List String) : List String :=
  root_base_path ++ ["History"]

/-- The stem one `record_history` call starting from filesystem `fs`
chooses (the directory is created before the probe runs). -/
def historyStem (fs : FS) (root_base_path : List String) (ts : String) : String :=
  chooseStem (fs.mkdir (historyDir root_base_path)) (historyDir root_base_path) ts

/-- Decimal digit characters of `n`, most significant first - the list
of characters `str(n)` renders (`Nat.repr` is fuel-based in core; this
well-founded version is what the probe lemmas reason about). -/
def decDigits (n : Nat) : List Char :=
  if h : n < 10 then [Nat.digitChar n]
  else decDigits (n / 10) ++ [Nat.digitChar (n % 10)]
decreasing_by exact Nat.div_lt_self (by omega) (by omega)

/-- All paths that exist in the filesystem, as one list. -/
def existingPaths (fs : FS) : List (List String) :=
  fs.files.map Prod.fst ++ fs.dirs

/-- A path segment that `posixpath` normalisation leaves untouched. -/
def goodSeg (s : String) : Prop :=
  s ≠ "" ∧ s ≠ "." ∧ s ≠ ".."

/-- The failure modes of one plugin invocation named by the plugin-host
claim: module load error, missing `create_window` factory, an exception
during construction, or a factory producing nothing. -/
def pluginFails (pb : PluginBehavior) : Prop :=
  pb.loadResult = .error () ∨ pb.hasFactory = false ∨
    pb.callResult = .error () ∨ pb.callResult = .ok none

/-! Association-list and filesystem lemmas. -/

theorem lookup_append {β : Type} (l₁ l₂ : List (List String × β)) (p : List String) :
    (l₁ ++ l₂).lookup p = ((l₁.lookup p).orElse (fun _ => l₂.lookup p)) := by
  induction l₁ with
  | nil => rfl
  | cons e t ih =>
    obtain ⟨k, v⟩ := e
    by_cases h : p = k
    · have hb : (p == k) = true := by simp [h]
      simp only [List.cons_append, List.lookup, hb]
      rfl
    · have hb : (p == k) = false := by simp [h]
      simp only [List.cons_append, List.lookup, hb]
      exact ih

theorem lookup_filter_ne_self {β : Type} (l : List (List String × β)) (p : List String) :
    (l.filter (fun e => decide (e.1 ≠ p))).lookup p = none := by
  induction l with
  | nil => rfl
  | cons e t ih =>
    obtain ⟨k, v⟩ := e
    by_cases h : k = p
    · rw [List.filter_cons, if_neg (by simp [h])]
      exact ih
    · rw [List.filter_cons, if_pos (by simp [h])]
      have hb : (p == k) = false := beq_false_of_ne (fun hpk => h hpk.symm)
      simp only [List.lookup, hb]
      exact ih

theorem lookup_filter_ne {β : Type} (l : List (List String × β)) (p q : List String)
    (hqp : q ≠ p) :
    (l.filter (fun e => decide (e.1 ≠ p))).lookup q = l.lookup q := by
  induction l with
  | nil => rfl
  | cons e t ih =>
    obtain ⟨k, v⟩ := e
    by_cases h : k = p
    · have hb : (q == k) = false := beq_false_of_ne (fun hqk => hqp (h ▸ hqk))
      rw [List.filter_cons, if_neg (by simp [h])]
      simp only [List.lookup, hb]
      exact ih
    · rw [List.filter_cons, if_pos (by simp [h])]
      by_cases hq : q = k
      · have hb : (q == k) = true := by simp [hq]
        simp only [List.lookup, hb]
      · have hb : (q == k) = false := by simp [hq]
        simp only [List.lookup, hb]
        exact ih

theorem lookup_isSome_iff_mem {β : Type} (l : List (List String × β)) (p : List String) :
    (l.lookup p).isSome = true ↔ p ∈ l.map Prod.fst := by
  induction l with
  | nil => simp [List.lookup]
  | cons e t ih =>
    obtain ⟨k, v⟩ := e
    by_cases h : p = k
    · have hb : (p == k) = true := by simp [h]
      simp only [List.lookup, hb, List.map_cons, List.mem_cons, Option.isSome_some]
      exact ⟨fun _ => Or.inl h, fun _ => trivial⟩
    · have hb : (p == k) = false := by simp [h]
      simp only [List.lookup, hb, List.map_cons, List.mem_cons]
      rw [ih]
      exact ⟨Or.inr, fun hor => hor.elim (fun e => absurd e h) id⟩

theorem FS.read_write_self (fs : FS) (p : List String) (c : FileContent) :
    (fs.write p c).read p = some c := by
  show ((fs.files.filter (fun e => decide (e.1 ≠ p))) ++ [(p, c)]).lookup p = some c
  rw [lookup_append, lookup_filter_ne_self]
  show [(p, c)].lookup p = some c
  simp [List.lookup]

theorem FS.read_write_ne (fs : FS) (p q : List String) (c : FileContent) (h : q ≠ p) :
    (fs.write p c).read q = fs.read q := by
  have hb : (q == p) = false := beq_false_of_ne h
  show ((fs.files.filter (fun e => decide (e.1 ≠ p))) ++ [(p, c)]).lookup q = fs.read q
  rw [lookup_append, lookup_filter_ne _ _ _ h]
  show ((fs.read q).orElse fun _ => [(p, c)].lookup q) = fs.read q
  simp only [List.lookup, hb]
  cases fs.read q <;> rfl

theorem FS.isFile_write_self (fs : FS) (p : List String) (c : FileContent) :
    (fs.write p c).isFile p = true := by
  simp [FS.isFile, FS.read_write_self]

theorem FS.isFile_write_ne (fs : FS) (p q : List String) (c : FileContent) (h : q ≠ p) :
    (fs.write p c).isFile q = fs.isFile q := by
  simp [FS.isFile, FS.read_write_ne fs p q c h]

theorem FS.write_dirs (fs : FS) (p : List String) (c : FileContent) :
    (fs.write p c).dirs = fs.dirs := rfl

theorem FS.mkdir_files (fs : FS) (d : List String) :
    (fs.mkdir d).files = fs.files := by
  unfold FS.mkdir
  split <;> rfl

theorem FS.read_mkdir (fs : FS) (d p : List String) :
    (fs.mkdir d).read p = fs.read p := by
  simp [FS.read, FS.mkdir_files]

theorem FS.isFile_mkdir (fs : FS) (d p : List String) :
    (fs.mkdir d).isFile p = fs.isFile p := by
  simp [FS.isFile, FS.read_mkdir]

theorem FS.isDir_mkdir_self (fs : FS) (d : List String) :
    (fs.mkdir d).isDir d = true := by
  unfold FS.mkdir FS.isDir
  split <;> simp_all

theorem FS.mkdir_dirs_subset (fs : FS) (d p : List String) (h : p ∈ (fs.mkdir d).dirs) :
    p ∈ fs.dirs ∨ p = d := by
  unfold FS.mkdir at h
  split at h
  · exact Or.inl h
  · simp only [List.mem_append, List.mem_singleton] at h
    exact h

theorem FS.isDir_write (fs : FS) (p q : List String) (c : FileContent) :
    (fs.write p c).isDir q = fs.isDir q := by
  simp [FS.isDir, FS.write_dirs]

theorem FS.pathExists_write_ne (fs : FS) (p q : List String) (c : FileContent)
    (h : q ≠ p) : (fs.write p c).pathExists q = fs.pathExists q := by
  simp [FS.pathExists, FS.isFile_write_ne fs p q c h, FS.isDir_write]

theorem FS.pathExists_mkdir_ne (fs : FS) (d p : List String) (h : p ≠ d) :
    (fs.mkdir d).pathExists p = fs.pathExists p := by
  unfold FS.pathExists FS.isDir
  rw [FS.isFile_mkdir]
  congr 1
  unfold FS.mkdir
  split
  · rfl
  · simp [h]

/-! Decimal rendering of naturals (`str(counter)` in the collision
probe). -/

theorem decDigits_lt {n : Nat} (h : n < 10) : decDigits n = [Nat.digitChar n] := by
  rw [decDigits, dif_pos h]

theorem decDigits_ge {n : Nat} (h : ¬ n < 10) :
    decDigits n = decDigits (n / 10) ++ [Nat.digitChar (n % 10)] := by
  rw [decDigits, dif_neg h]

theorem decDigits_ne_nil (n : Nat) : decDigits n ≠ [] := by
  by_cases h : n < 10
  · rw [decDigits_lt h]; simp
  · rw [decDigits_ge h]; simp

theorem digitChar_inj_lt {a b : Nat} (ha : a < 10) (hb : b < 10)
    (h : Nat.digitChar a = Nat.digitChar b) : a = b := by
  interval_cases a <;> interval_cases b <;> first | rfl | (exact absurd h (by decide))

theorem digitChar_ne_slash {a : Nat} (ha : a < 10) : Nat.digitChar a ≠ '/' := by
  interval_cases a <;> decide

theorem toDigitsCore_eq_decDigits :
    ∀ (fuel n : Nat) (ds : List Char), n < fuel →
      Nat.toDigitsCore 10 fuel n ds = decDigits n ++ ds := by
  intro fuel
  induction fuel with
  | zero => intro n ds h; omega
  | succ f ih =>
    intro n ds h
    show (if n / 10 = 0 then Nat.digitChar (n % 10) :: ds
          else Nat.toDigitsCore 10 f (n / 10) (Nat.digitChar (n % 10) :: ds)) =
        decDigits n ++ ds
    by_cases h0 : n / 10 = 0
    · have hn : n < 10 := by omega
      rw [if_pos h0, decDigits_lt hn, Nat.mod_eq_of_lt hn]
      rfl
    · have hn : ¬ n < 10 := by omega
      have hd : n / 10 < n := Nat.div_lt_self (by omega) (by omega)
      have hlt : n / 10 < f := by omega
      rw [if_neg h0, ih (n / 10) (Nat.digitChar (n % 10) :: ds) hlt, decDigits_ge hn,
        List.append_assoc]
      rfl

theorem repr_eq_decDigits (n : Nat) : Nat.repr n = String.mk (decDigits n) := by
  show (Nat.toDigits 10 n).asString = String.mk (decDigits n)
  unfold Nat.toDigits
  rw [toDigitsCore_eq_decDigits (n + 1) n [] (by omega)]
  simp [List.asString]

theorem decDigits_inj : ∀ m n : Nat, decDigits m = decDigits n → m = n := by
  intro m
  induction m using Nat.strong_induction_on with
  | _ m ih =>
    intro n h
    by_cases hm : m < 10 <;> by_cases hn : n < 10
    · rw [decDigits_lt hm, decDigits_lt hn] at h
      exact digitChar_inj_lt hm hn (List.head_eq_of_cons_eq h)
    · rw [decDigits_lt hm, decDigits_ge hn] at h
      have hlen := congrArg List.length h
      rw [List.length_append] at hlen
      simp only [List.length_singleton] at hlen
      have hpos := List.length_pos.mpr (decDigits_ne_nil (n / 10))
      omega
    · rw [decDigits_ge hm, decDigits_lt hn] at h
      have hlen := congrArg List.length h
      rw [List.length_append] at hlen
      simp only [List.length_singleton] at hlen
      have hpos := List.length_pos.mpr (decDigits_ne_nil (m / 10))
      omega
    · rw [decDigits_ge hm, decDigits_ge hn] at h
      obtain ⟨h1, h2⟩ := List.append_inj' h (by simp)
      have e1 : m % 10 = n % 10 :=
        digitChar_inj_lt (Nat.mod_lt _ (by omega)) (Nat.mod_lt _ (by omega))
          (List.head_eq_of_cons_eq h2)
      have e2 : m / 10 = n / 10 :=
        ih (m / 10) (Nat.div_lt_self (by omega) (by omega)) (n / 10) h1
      omega

theorem nat_repr_inj {m n : Nat} (h : Nat.repr m = Nat.repr n) : m = n := by
  rw [repr_eq_decDigits, repr_eq_decDigits] at h
  exact decDigits_inj m n (congrArg String.data h)

theorem slash_not_mem_decDigits : ∀ n : Nat, '/' ∉ decDigits n := by
  intro n
  induction n using Nat.strong_induction_on with
  | _ n ih =>
    by_cases h : n < 10
    · rw [decDigits_lt h]
      simp only [List.mem_singleton]
      intro hm
      exact digitChar_ne_slash h hm.symm
    · rw [decDigits_ge h]
      simp only [List.mem_append, List.mem_singleton]
      rintro (hm | hm)
      · exact ih (n / 10) (Nat.div_lt_self (by omega) (by omega)) hm
      · exact digitChar_ne_slash (Nat.mod_lt _ (by omega)) hm.symm

theorem slash_not_mem_repr (n : Nat) : '/' ∉ (Nat.repr n).data := by
  rw [repr_eq_decDigits]
  exact slash_not_mem_decDigits n

theorem repr_data_ne_nil (n : Nat) : (Nat.repr n).data ≠ [] := by
  rw [repr_eq_decDigits]
  exact decDigits_ne_nil n

/-! String helper lemmas. -/

theorem string_append_left_cancel {a b c : String} (h : a ++ b = a ++ c) : b = c := by
  apply String.ext
  have := congrArg String.data h
  simp only [String.data_append] at this
  exact List.append_cancel_left this

theorem string_append_right_cancel {a b c : String} (h : a ++ c = b ++ c) : a = b := by
  apply String.ext
  have := congrArg String.data h
  simp only [String.data_append] at this
  exact List.append_cancel_right this

theorem string_data_length_append (a b : String) :
    (a ++ b).data.length = a.data.length + b.data.length := by
  simp [String.data_append]

/-! Collision-probe lemmas: the candidate stems are pairwise distinct,
so on a finite filesystem the probe always finds a free one, and it
finds the least one with no gap skipped. -/

theorem stemName_inj {ts : String} : ∀ {k l : Nat}, stemName ts k = stemName ts l → k = l := by
  have hlen : ∀ j : Nat, (stemName ts (j + 1)).data.length =
      ts.data.length + 1 + (Nat.repr (j + 1)).data.length := by
    intro j
    show ((ts ++ "-") ++ Nat.repr (j + 1)).data.length = _
    rw [string_data_length_append, string_data_length_append]
    rfl
  intro k l h
  match k, l with
  | 0, 0 => rfl
  | 0, l + 1 =>
    exfalso
    have h1 := congrArg (fun s : String => s.data.length) h
    simp only at h1
    rw [hlen l] at h1
    have := List.length_pos.mpr (repr_data_ne_nil (l + 1))
    simp [stemName] at h1
    omega
  | k + 1, 0 =>
    exfalso
    have h1 := congrArg (fun s : String => s.data.length) h
    simp only at h1
    rw [hlen k] at h1
    have := List.length_pos.mpr (repr_data_ne_nil (k + 1))
    simp [stemName] at h1
    omega
  | k + 1, l + 1 =>
    have h2 : (ts ++ "-") ++ Nat.repr (k + 1) = (ts ++ "-") ++ Nat.repr (l + 1) := h
    have h3 := string_append_left_cancel h2
    have := nat_repr_inj h3
    omega

theorem candJson_injective (hd : List String) (ts : String) :
    Function.Injective (candJson hd ts) := by
  intro k l h
  unfold candJson at h
  have h2 := List.append_cancel_left h
  have h3 : stemName ts k ++ ".json" = stemName ts l ++ ".json" := by
    injection h2
  exact stemName_inj (string_append_right_cancel h3)

theorem pathExists_iff_mem (fs : FS) (p : List String) :
    fs.pathExists p = true ↔ p ∈ existingPaths fs := by
  unfold FS.pathExists FS.isFile FS.isDir FS.read existingPaths
  rw [Bool.or_eq_true, lookup_isSome_iff_mem, decide_eq_true_eq, List.mem_append]

theorem exists_free_idx (fs : FS) (hd : List String) (ts : String) :
    ∃ m, m ≤ fs.files.length + fs.dirs.length ∧
      fs.pathExists (candJson hd ts m) = false := by
  by_contra hcon
  push_neg at hcon
  have hall : ∀ m, m ≤ fs.files.length + fs.dirs.length →
      fs.pathExists (candJson hd ts m) = true := by
    intro m hm
    have hne := hcon m hm
    cases hx : fs.pathExists (candJson hd ts m)
    · exact absurd hx hne
    · rfl
  have hsub : (List.range (fs.files.length + fs.dirs.length + 1)).map (candJson hd ts) ⊆
      existingPaths fs := by
    intro x hx
    simp only [List.mem_map, List.mem_range] at hx
    obtain ⟨m, hm, rfl⟩ := hx
    exact (pathExists_iff_mem fs _).mp (hall m (by omega))
  have hnd : ((List.range (fs.files.length + fs.dirs.length + 1)).map (candJson hd ts)).Nodup :=
    (List.nodup_range _).map (candJson_injective hd ts)
  have hle := (List.subperm_of_subset hnd hsub).length_le
  simp only [List.length_map, List.length_range, existingPaths, List.length_append,
    List.length_map] at hle
  omega

theorem firstFreeIdx_spec (fs : FS) (hd : List String) (ts : String) :
    ∀ (fuel k m : Nat), m < fuel →
      (∀ j, j < m → fs.pathExists (candJson hd ts (k + j)) = true) →
      fs.pathExists (candJson hd ts (k + m)) = false →
      firstFreeIdx fs hd ts fuel k = k + m := by
  intro fuel
  induction fuel with
  | zero => intro k m hm; omega
  | succ f ih =>
    intro k m hm htaken hfree
    match m with
    | 0 =>
      unfold firstFreeIdx
      rw [if_neg (by simp_all)]
      omega
    | m' + 1 =>
      have hk : fs.pathExists (candJson hd ts k) = true := by
        have := htaken 0 (by omega)
        simpa using this
      unfold firstFreeIdx
      rw [if_pos hk]
      have := ih (k + 1) m' (by omega)
        (fun j hj => by
          have := htaken (j + 1) (by omega)
          simpa [Nat.add_assoc, Nat.add_comm 1 j] using this)
        (by
          have : k + 1 + m' = k + (m' + 1) := by omega
          rw [this]
          exact hfree)
      omega

theorem firstFreeIdx_free (fs : FS) (hd : List String) (ts : String) :
    ∀ (fuel k : Nat),
      (∃ j, j < fuel ∧ fs.pathExists (candJson hd ts (k + j)) = false) →
      fs.pathExists (candJson hd ts (firstFreeIdx fs hd ts fuel k)) = false := by
  intro fuel
  induction fuel with
  | zero =>
    intro k h
    obtain ⟨j, hj, _⟩ := h
    omega
  | succ f ih =>
    intro k h
    by_cases hk : fs.pathExists (candJson hd ts k) = true
    · unfold firstFreeIdx
      rw [if_pos hk]
      apply ih
      obtain ⟨j, hj, hjf⟩ := h
      match j with
      | 0 => simp only [Nat.add_zero] at hjf; exact absurd hk (by simp [hjf])
      | j' + 1 =>
        exact ⟨j', by omega, by
          have : k + 1 + j' = k + (j' + 1) := by omega
          rw [this]
          exact hjf⟩
    · unfold firstFreeIdx
      rw [if_neg hk]
      cases hx : fs.pathExists (candJson hd ts k)
      · rfl
      · exact absurd hx hk

theorem chosenIdx_spec (fs : FS) (hd : List String) (ts : String) (m : Nat)
    (htaken : ∀ j, j < m → fs.pathExists (candJson hd ts j) = true)
    (hfree : fs.pathExists (candJson hd ts m) = false) :
    chosenIdx fs hd ts = m := by
  obtain ⟨m₀, hm₀N, hm₀free⟩ := exists_free_idx fs hd ts
  have hmN : m ≤ fs.files.length + fs.dirs.length := by
    by_contra hgt
    exact absurd (htaken m₀ (by omega)) (by simp [hm₀free])
  have := firstFreeIdx_spec fs hd ts (fs.files.length + fs.dirs.length + 1) 0 m
    (by omega) (fun j hj => by simpa using htaken j hj) (by simpa using hfree)
  simpa [chosenIdx] using this

theorem chosenIdx_free (fs : FS) (hd : List String) (ts : String) :
    fs.pathExists (candJson hd ts (chosenIdx fs hd ts)) = false := by
  obtain ⟨m₀, hm₀N, hm₀free⟩ := exists_free_idx fs hd ts
  exact firstFreeIdx_free fs hd ts _ 0 ⟨m₀, by omega, by simpa using hm₀free⟩

/-! Path-normalisation and segment lemmas. -/

theorem normalize_foldl (p : List String) (h : ∀ s ∈ p, goodSeg s) :
    ∀ acc, p.foldl
      (fun acc seg =>
        if seg = "" then acc
        else if seg = "." then acc
        else if seg = ".." then acc.dropLast
        else acc ++ [seg]) acc = acc ++ p := by
  induction p with
  | nil => intro acc; simp
  | cons s t ih =>
    intro acc
    obtain ⟨h1, h2, h3⟩ := h s (by simp)
    simp only [List.foldl_cons, if_neg h1, if_neg h2, if_neg h3]
    rw [ih (fun x hx => h x (by simp [hx])) (acc ++ [s])]
    simp

theorem normalize_eq_self {p : List String} (h : ∀ s ∈ p, goodSeg s) :
    normalize p = p := by
  unfold normalize
  rw [normalize_foldl p h []]
  simp

theorem splitSegs_no_slash : ∀ (l : List Char), '/' ∉ l → splitSegs l = [l] := by
  intro l
  induction l with
  | nil => intro _; rfl
  | cons c cs ih =>
    intro h
    have hc : ¬ c = '/' := fun e => h (by simp [e])
    have hcs : '/' ∉ cs := fun e => h (by simp [e])
    unfold splitSegs
    rw [if_neg hc, ih hcs]

theorem segments_single {s : String} (h1 : '/' ∉ s.data) (h2 : s ≠ "") :
    segments s = [s] := by
  unfold segments
  rw [splitSegs_no_slash s.data h1]
  simp only [List.map_cons, List.map_nil]
  have hs : String.mk s.data = s := rfl
  rw [hs, List.filter_cons, if_pos (by simp [h2])]
  rfl

theorem isAbsStr_false_of_no_slash {s : String} (h : '/' ∉ s.data) :
    isAbsStr s = false := by
  unfold isAbsStr
  split
  · rfl
  next c cs heq =>
    have hc : c ≠ '/' := fun e => h (by rw [heq, ← e]; exact List.mem_cons_self c cs)
    simp [hc]

theorem stemName_no_slash {ts : String} (h : '/' ∉ ts.data) (k : Nat) :
    '/' ∉ (stemName ts k).data := by
  match k with
  | 0 => exact h
  | k + 1 =>
    show '/' ∉ ((ts ++ "-") ++ Nat.repr (k + 1)).data
    simp only [String.data_append, List.mem_append]
    rintro ((hm | hm) | hm)
    · exact h hm
    · exact absurd hm (by decide)
    · exact slash_not_mem_repr _ hm

theorem stemName_data_ne_nil {ts : String} (h : ts.data ≠ []) (k : Nat) :
    (stemName ts k).data ≠ [] := by
  match k with
  | 0 => exact h
  | k + 1 =>
    show ((ts ++ "-") ++ Nat.repr (k + 1)).data ≠ []
    simp only [String.data_append]
    intro e
    rcases List.append_eq_nil.mp e with ⟨e1, _⟩
    rcases List.append_eq_nil.mp e1 with ⟨e2, _⟩
    exact h e2

theorem goodSeg_of_long {s : String} (h : 3 ≤ s.data.length) : goodSeg s := by
  refine ⟨?_, ?_, ?_⟩ <;> intro e <;> rw [e] at h <;> exact absurd h (by decide)

theorem goodSeg_append_ext {s ext : String} (h : 3 ≤ ext.data.length) :
    goodSeg (s ++ ext) := by
  apply goodSeg_of_long
  rw [string_data_length_append]
  omega

/-! Breadcrumb lemmas. -/

theorem commonPrefixLen_append (root rest : List String) :
    commonPrefixLen (root ++ rest) root = root.length := by
  induction root with
  | nil => cases rest <;> rfl
  | cons a t ih => simp [commonPrefixLen, ih]

theorem relpath_append (root rest : List String) (h : rest ≠ []) :
    relpath (root ++ rest) root = rest := by
  unfold relpath
  rw [commonPrefixLen_append]
  simp [List.drop_left, h]

theorem crumbs_chain (parts : List String) :
    ∀ (accum : List String) (lbl : String),
      List.Chain' (fun c c' => c'.2 = c.2 ++ [c'.1]) ((lbl, accum) :: crumbs accum parts) := by
  induction parts with
  | nil => intro accum lbl; simp [crumbs]
  | cons s t ih =>
    intro accum lbl
    unfold crumbs
    exact List.chain'_cons.mpr ⟨rfl, ih (accum ++ [s]) s⟩

theorem update_breadcrumbs_head (base root : List String) :
    ∃ t, update_breadcrumbs base root = ("Home", root) :: t := by
  unfold update_breadcrumbs
  dsimp only
  split
  · exact ⟨[], rfl⟩
  · split
    · exact ⟨[], rfl⟩
    · exact ⟨_, rfl⟩

theorem update_breadcrumbs_root_self (root : List String) :
    update_breadcrumbs root root = [("Home", root)] := by
  unfold update_breadcrumbs
  rw [if_pos rfl]

theorem update_breadcrumbs_chain_all (base root : List String) :
    List.Chain' (fun c c' => c'.2 = c.2 ++ [c'.1]) (update_breadcrumbs base root) := by
  unfold update_breadcrumbs
  dsimp only
  split
  · simp
  · split
    · simp
    · exact crumbs_chain _ root "Home"

theorem update_breadcrumbs_two (root : List String) (a b : String)
    (hroot : ∀ s ∈ root, goodSeg s) (ha : goodSeg a) (hb : goodSeg b) :
    update_breadcrumbs (root ++ [a, b]) root =
      [("Home", root), (a, root ++ [a]), (b, root ++ [a, b])] := by
  have hgood : ∀ s ∈ root ++ [a, b], goodSeg s := by
    intro s hs
    rcases List.mem_append.mp hs with h | h
    · exact hroot s h
    · simp only [List.mem_cons, List.not_mem_nil, or_false] at h
      rcases h with rfl | rfl
      · exact ha
      · exact hb
  unfold update_breadcrumbs
  rw [normalize_eq_self hgood, normalize_eq_self hroot]
  rw [if_neg (by
    intro e
    have := congrArg List.length e
    simp at this)]
  dsimp only
  rw [relpath_append root [a, b] (by simp)]
  rw [if_neg (by
    intro e
    have := congrArg List.length e
    simp at this)]
  rw [show ([a, b].filter (fun p => decide (p ≠ ""))) = [a, b] from by
    simp [ha.1, hb.1]]
  simp [crumbs, List.append_assoc]

theorem normalize_foldl_good (p : List String) :
    ∀ acc, (∀ s ∈ acc, goodSeg s) →
      ∀ s ∈ p.foldl
        (fun acc seg =>
          if seg = "" then acc
          else if seg = "." then acc
          else if seg = ".." then acc.dropLast
          else acc ++ [seg]) acc, goodSeg s := by
  induction p with
  | nil => intro acc hacc s hs; exact hacc s hs
  | cons x t ih =>
    intro acc hacc s hs
    simp only [List.foldl_cons] at hs
    by_cases h1 : x = ""
    · rw [if_pos h1] at hs; exact ih acc hacc s hs
    · rw [if_neg h1] at hs
      by_cases h2 : x = "."
      · rw [if_pos h2] at hs; exact ih acc hacc s hs
      · rw [if_neg h2] at hs
        by_cases h3 : x = ".."
        · rw [if_pos h3] at hs
          exact ih _ (fun y hy => hacc y ((List.dropLast_sublist acc).subset hy)) s hs
        · rw [if_neg h3] at hs
          refine ih _ (fun y hy => ?_) s hs
          rcases List.mem_append.mp hy with h | h
          · exact hacc y h
          · simp only [List.mem_singleton] at h
            subst h
            exact ⟨h1, h2, h3⟩

theorem normalize_good (p : List String) : ∀ s ∈ normalize p, goodSeg s := by
  unfold normalize
  exact normalize_foldl_good p [] (by simp)

theorem normalize_idem (p : List String) : normalize (normalize p) = normalize p :=
  normalize_eq_self (normalize_good p)

/-- The plugin host never lets an exception escape: every invocation
outcome yields a normal return. -/
theorem run_python_plugin_isOk (st : LauncherState) (pb : PluginBehavior) :
    ∃ st', run_python_plugin st pb = .ok st' := by
  obtain ⟨lr, hf, cr⟩ := pb
  rcases lr with u | u
  · exact ⟨st, rfl⟩
  · cases hf
    · exact ⟨st, rfl⟩
    · rcases cr with u' | o
      · exact ⟨st, rfl⟩
      · rcases o with _ | w
        · exact ⟨st, rfl⟩
        · exact ⟨_, rfl⟩

/-- No dispatch branch surfaces an error to the caller. -/
theorem execute_openaction_isOk (fs : FS) (st : LauncherState)
    (descriptor : List (String × JVal)) (pb : PluginBehavior)
    (popen : Except Unit Unit) :
    ∃ r, execute_openaction fs st descriptor pb popen = .ok r := by
  obtain ⟨st', hok⟩ := run_python_plugin_isOk st pb
  unfold execute_openaction
  repeat' first
    | exact ⟨_, rfl⟩
    | split
    | dsimp only
  all_goals simp_all

/-! Claim theorems. -/

/-- C9: path resolution policy — `resolve_icon_path` returns the value
itself when the value is an absolute path naming an existing file,
returns the absolute join of base and value when the value is relative
and that join names an existing file, and returns nothing (not an
error) in every other case, including a missing target and the
degenerate `None`/empty inputs. -/
theorem resolveAsset_policy (fs : FS) (base : List String) (v : String) :
    resolve_icon_path fs base none = none ∧
    resolve_icon_path fs base (some "") = none ∧
    (isAbsStr v = true → fs.isFile (normalize (segments v)) = true →
      resolve_icon_path fs base (some v) = some (segments v)) ∧
    (isAbsStr v = true → fs.isFile (normalize (segments v)) = false →
      resolve_icon_path fs base (some v) = none) ∧
    (v ≠ "" → isAbsStr v = false →
      fs.isFile (normalize (base ++ segments v)) = true →
      resolve_icon_path fs base (some v) = some (normalize (base ++ segments v))) ∧
    (v ≠ "" → isAbsStr v = false →
      fs.isFile (normalize (base ++ segments v)) = false →
      resolve_icon_path fs base (some v) = none) := by
  refine ⟨rfl, rfl, ?_, ?_, ?_, ?_⟩
  · intro habs hfile
    have hv : v ≠ "" := by
      intro e
      rw [e] at habs
      exact absurd habs (by decide)
    simp [resolve_icon_path, hv, habs, hfile]
  · intro habs hfile
    have hv : v ≠ "" := by
      intro e
      rw [e] at habs
      exact absurd habs (by decide)
    simp [resolve_icon_path, hv, habs, hfile]
  · intro hv habs hfile
    simp [resolve_icon_path, hv, habs, hfile]
  · intro hv habs hfile
    simp [resolve_icon_path, hv, habs, hfile]

/-- C9 witness: a relative icon next to the base directory resolves to
its absolute path. -/
theorem resolveAsset_policy_witness :
    resolve_icon_path ⟨[(["b", "icon.png"], .text "png")], [["b"]]⟩ ["b"]
      (some "icon.png") = some ["b", "icon.png"] := by
  have h := (resolveAsset_policy ⟨[(["b", "icon.png"], .text "png")], [["b"]]⟩
    ["b"] "icon.png").2.2.2.2.1 (by decide) (by decide) (by decide)
  rw [h]
  rfl

/-- C5: breadcrumb invariant — after every base-directory change the
recomputed trail starts with `("Home", root)`; at the root the trail is
exactly the single Home crumb; for `root/a/b` the trail is Home, then
`(a, root/a)`, then `(b, root/a/b)`; and consecutive crumbs always
extend the previous crumb's path by exactly the new crumb's segment. -/
theorem breadcrumb_invariant (root : List String) (a b : String)
    (hroot : ∀ s ∈ root, goodSeg s) (ha : goodSeg a) (hb : goodSeg b) :
    (∀ (fs : FS) (st : LauncherState) (new_base : List String),
      ((change_base_path fs st new_base).1.breadcrumbs).head? =
        some ("Home", st.root_base_path)) ∧
    update_breadcrumbs root root = [("Home", root)] ∧
    update_breadcrumbs (root ++ [a, b]) root =
      [("Home", root), (a, root ++ [a]), (b, root ++ [a, b])] ∧
    (∀ base, List.Chain' (fun c c' => c'.2 = c.2 ++ [c'.1])
      (update_breadcrumbs base root)) := by
  refine ⟨?_, update_breadcrumbs_root_self root,
    update_breadcrumbs_two root a b hroot ha hb,
    fun base => update_breadcrumbs_chain_all base root⟩
  intro fs st new_base
  obtain ⟨t, ht⟩ := update_breadcrumbs_head (normalize new_base) st.root_base_path
  show (update_breadcrumbs (normalize new_base) st.root_base_path).head? = _
  rw [ht]
  rfl

/-- C5 witness: the trail for `/r/a/b` under root `/r`. -/
theorem breadcrumb_invariant_witness :
    update_breadcrumbs ["r", "a", "b"] ["r"] =
      [("Home", ["r"]), ("a", ["r", "a"]), ("b", ["r", "a", "b"])] := by
  have h := (breadcrumb_invariant ["r"] "a" "b"
    (by intro s hs; simp only [List.mem_singleton] at hs; subst hs; exact ⟨by decide, by decide, by decide⟩)
    ⟨by decide, by decide, by decide⟩ ⟨by decide, by decide, by decide⟩).2.2.1
  simpa using h

/-- C7: plugin-host failure isolation — for every failing handler
invocation (module load error, missing `create_window` factory,
exception during construction, or a factory returning nothing) the
failure is caught (`Except.ok`, so nothing propagates to the
dispatcher's caller) and the state, in particular the retained
`child_windows` list, is unchanged. -/
theorem plugin_failure_isolation (st : LauncherState) (pb : PluginBehavior)
    (h : pluginFails pb) :
    run_python_plugin st pb = .ok st := by
  obtain ⟨lr, hf, cr⟩ := pb
  rcases lr with u | u
  · rfl
  · cases hf
    · rfl
    · rcases cr with u' | o
      · rfl
      · rcases o with _ | w
        · rfl
        · rcases h with h | h | h | h <;> simp_all

/-- C7 witness: a factory that raises during construction leaves the
host state (including its one retained window) untouched. -/
theorem plugin_failure_isolation_witness :
    run_python_plugin ⟨["r"], ["r"], [7], []⟩ ⟨.ok (), true, .error ()⟩ =
      .ok ⟨["r"], ["r"], [7], []⟩ :=
  plugin_failure_isolation ⟨["r"], ["r"], [7], []⟩ ⟨.ok (), true, .error ()⟩
    (Or.inr (Or.inr (Or.inl rfl)))

/-- C10: implicit dispatch guard — whenever the open action's `arg0` is
absent, not a string, or the empty string, dispatch is a complete no-op
(state unchanged, no rescan, no process, no plugin invocation),
whatever the `command` field holds. -/
theorem dispatch_arg0_guard (fs : FS) (st : LauncherState)
    (descriptor : List (String × JVal)) (pb : PluginBehavior)
    (popen : Except Unit Unit) (oa : List (String × JVal))
    (hoa : descriptor.lookup "openaction" = some (.obj oa)) :
    (oa.lookup "arg0" = none →
      execute_openaction fs st descriptor pb popen = .ok (noDispatch st)) ∧
    (∀ j, oa.lookup "arg0" = some j → (∀ s, j ≠ .str s) →
      execute_openaction fs st descriptor pb popen = .ok (noDispatch st)) ∧
    (oa.lookup "arg0" = some (.str "") →
      execute_openaction fs st descriptor pb popen = .ok (noDispatch st)) := by
  refine ⟨?_, ?_, ?_⟩
  · intro h
    simp only [execute_openaction, hoa, h]
  · intro j h hj
    cases j with
    | str s => exact absurd rfl (hj s)
    | num n => simp only [execute_openaction, hoa, h]
    | bool b => simp only [execute_openaction, hoa, h]
    | null => simp only [execute_openaction, hoa, h]
    | arr l => simp only [execute_openaction, hoa, h]
    | obj o => simp only [execute_openaction, hoa, h]
  · intro h
    simp only [execute_openaction, hoa, h]
    rfl

/-- C10 witness: a recognized command with a missing `arg0` does
nothing. -/
theorem dispatch_arg0_guard_witness :
    execute_openaction ⟨[], [["r"]]⟩ ⟨["r"], ["r"], [], []⟩
      [("openaction", .obj [("command", .str "path")])]
      ⟨.ok (), true, .ok none⟩ (.ok ()) =
      .ok (noDispatch ⟨["r"], ["r"], [], []⟩) :=
  (dispatch_arg0_guard ⟨[], [["r"]]⟩ ⟨["r"], ["r"], [], []⟩
    [("openaction", .obj [("command", .str "path")])]
    ⟨.ok (), true, .ok none⟩ (.ok ()) [("command", .str "path")] rfl).1 rfl

/-- C6: dispatching `{command: "path", arg0: sub}` where `base/sub` is
an existing directory transitions the current base there (and performs
the rescan of the new directory); when `base/sub` does not exist the
state is unchanged; an unknown `command` (string or not, or absent) is
a no-op; and no dispatch branch ever surfaces an error to the caller. -/
theorem dispatch_path_policy (fs : FS) (st : LauncherState)
    (descriptor oa : List (String × JVal)) (pb : PluginBehavior)
    (popen : Except Unit Unit) (a : String)
    (hoa : descriptor.lookup "openaction" = some (.obj oa))
    (harg : oa.lookup "arg0" = some (.str a)) (hne : a ≠ "")
    (hrel : isAbsStr a = false) :
    (oa.lookup "command" = some (.str "path") →
      fs.isDir (normalize (st.base_path ++ segments a)) = true →
      execute_openaction fs st descriptor pb popen =
        .ok ⟨{ st with
                base_path := normalize (st.base_path ++ segments a),
                breadcrumbs := update_breadcrumbs
                  (normalize (st.base_path ++ segments a)) st.root_base_path },
             some (scan fs (normalize (st.base_path ++ segments a))), none, false⟩) ∧
    (oa.lookup "command" = some (.str "path") →
      fs.isDir (normalize (st.base_path ++ segments a)) = false →
      execute_openaction fs st descriptor pb popen = .ok (noDispatch st)) ∧
    (∀ c, oa.lookup "command" = some (.str c) →
      c ≠ "path" → c ≠ "python" → c ≠ "shell" →
      execute_openaction fs st descriptor pb popen = .ok (noDispatch st)) ∧
    (oa.lookup "command" = none →
      execute_openaction fs st descriptor pb popen = .ok (noDispatch st)) ∧
    (∀ j, oa.lookup "command" = some j → (∀ s, j ≠ .str s) →
      execute_openaction fs st descriptor pb popen = .ok (noDispatch st)) ∧
    (∃ r, execute_openaction fs st descriptor pb popen = Except.ok r) := by
  refine ⟨?_, ?_, ?_, ?_, ?_, execute_openaction_isOk fs st descriptor pb popen⟩
  · intro hcmd hdir
    simp only [execute_openaction, hoa, harg, hcmd]
    rw [if_neg hne]
    simp only [if_true]
    simp [hrel, normalize_idem, hdir, change_base_path]
  · intro hcmd hdir
    simp only [execute_openaction, hoa, harg, hcmd]
    rw [if_neg hne]
    simp only [if_true]
    simp [hrel, normalize_idem, hdir]
  · intro c hc h1 h2 h3
    simp only [execute_openaction, hoa, harg, hc]
    rw [if_neg hne, if_neg h1, if_neg h2, if_neg h3]
  · intro hc
    simp only [execute_openaction, hoa, harg, hc]
    rw [if_neg hne]
  · intro j hc hj
    cases j with
    | str s => exact absurd rfl (hj s)
    | num n =>
      simp only [execute_openaction, hoa, harg, hc]
      rw [if_neg hne]
    | bool b =>
      simp only [execute_openaction, hoa, harg, hc]
      rw [if_neg hne]
    | null =>
      simp only [execute_openaction, hoa, harg, hc]
      rw [if_neg hne]
    | arr l =>
      simp only [execute_openaction, hoa, harg, hc]
      rw [if_neg hne]
    | obj o =>
      simp only [execute_openaction, hoa, harg, hc]
      rw [if_neg hne]

/-- C6 witness: navigating into an existing sub-directory moves the
base there and rescans; the same action with the directory absent
leaves the state unchanged. -/
theorem dispatch_path_policy_witness :
    execute_openaction ⟨[], [["r"], ["r", "sub"]]⟩ ⟨["r"], ["r"], [], []⟩
        [("openaction", .obj [("command", .str "path"), ("arg0", .str "sub")])]
        ⟨.ok (), true, .ok none⟩ (.ok ()) =
      .ok ⟨{ base_path := ["r", "sub"], root_base_path := ["r"], child_windows := [],
             breadcrumbs := update_breadcrumbs ["r", "sub"] ["r"] },
           some [], none, false⟩ ∧
    execute_openaction ⟨[], [["r"]]⟩ ⟨["r"], ["r"], [], []⟩
        [("openaction", .obj [("command", .str "path"), ("arg0", .str "sub")])]
        ⟨.ok (), true, .ok none⟩ (.ok ()) =
      .ok (noDispatch ⟨["r"], ["r"], [], []⟩) := by
  constructor
  · have h := (dispatch_path_policy ⟨[], [["r"], ["r", "sub"]]⟩ ⟨["r"], ["r"], [], []⟩
      [("openaction", .obj [("command", .str "path"), ("arg0", .str "sub")])]
      [("command", .str "path"), ("arg0", .str "sub")]
      ⟨.ok (), true, .ok none⟩ (.ok ()) "sub" rfl (by rfl) (by decide) (by decide)).1
      rfl (by decide)
    rw [h]
    rfl
  · have h := (dispatch_path_policy ⟨[], [["r"]]⟩ ⟨["r"], ["r"], [], []⟩
      [("openaction", .obj [("command", .str "path"), ("arg0", .str "sub")])]
      [("command", .str "path"), ("arg0", .str "sub")]
      ⟨.ok (), true, .ok none⟩ (.ok ()) "sub" rfl (by rfl) (by decide) (by decide)).2.1
      rfl (by decide)
    exact h

theorem filterMap_pair_fst {α β : Type} (l : List α) (f : α → Option β) :
    (l.filterMap (fun p => (f p).map (fun d => (p, d)))).map Prod.fst =
      l.filter (fun p => (f p).isSome) := by
  induction l with
  | nil => rfl
  | cons x t ih =>
    rw [List.filterMap_cons, List.filter_cons]
    cases hx : f x with
    | none =>
      simp only [hx, Option.map_none', Option.isSome_none]
      rw [if_neg (by simp)]
      exact ih
    | some d =>
      simp only [hx, Option.map_some', Option.isSome_some]
      rw [if_pos (by simp)]
      simp only [List.map_cons, ih]

theorem mem_scan_iff (fs : FS) (base p : List String) (d : List (String × JVal)) :
    (p, d) ∈ scan fs base ↔
      p ∈ find_object_files fs base ∧ load_object_descriptor fs p = some d := by
  unfold scan
  rw [List.mem_filterMap]
  constructor
  · rintro ⟨q, hq, he⟩
    cases hl : load_object_descriptor fs q with
    | none => rw [hl] at he; cases he
    | some dd =>
      rw [hl] at he
      simp only [Option.map_some', Option.some.injEq, Prod.mk.injEq] at he
      obtain ⟨rfl, rfl⟩ := he
      exact ⟨hq, hl⟩
  · rintro ⟨hmem, hload⟩
    exact ⟨p, hmem, by rw [hload]; rfl⟩

theorem charListLe_total : ∀ a b, charListLe a b = true ∨ charListLe b a = true := by
  intro a
  induction a with
  | nil => intro b; exact Or.inl rfl
  | cons x xs ih =>
    intro b
    cases b with
    | nil => exact Or.inr rfl
    | cons y ys =>
      unfold charListLe
      by_cases h1 : x.toNat < y.toNat
      · left; rw [if_pos h1]
      · by_cases h2 : y.toNat < x.toNat
        · right; rw [if_pos h2]
        · rw [if_neg h1, if_neg h2, if_neg h2, if_neg h1]
          exact ih ys

theorem charListLe_trans :
    ∀ a b c, charListLe a b = true → charListLe b c = true → charListLe a c = true := by
  intro a
  induction a with
  | nil => intro b c _ _; rfl
  | cons x xs ih =>
    intro b c hab hbc
    cases b with
    | nil => exact absurd hab (by simp [charListLe])
    | cons y ys =>
      cases c with
      | nil => exact absurd hbc (by simp [charListLe])
      | cons z zs =>
        unfold charListLe at hab hbc ⊢
        by_cases h1 : x.toNat < y.toNat
        · rw [if_pos h1] at hab
          by_cases h2 : y.toNat < z.toNat
          · rw [if_pos (show x.toNat < z.toNat by omega)]
          · by_cases h3 : z.toNat < y.toNat
            · rw [if_neg h2, if_pos h3] at hbc
              exact absurd hbc (by simp)
            · rw [if_pos (show x.toNat < z.toNat by omega)]
        · rw [if_neg h1] at hab
          by_cases h4 : y.toNat < x.toNat
          · rw [if_pos h4] at hab
            exact absurd hab (by simp)
          · rw [if_neg h4] at hab
            by_cases h2 : y.toNat < z.toNat
            · rw [if_pos (show x.toNat < z.toNat by omega)]
            · by_cases h3 : z.toNat < y.toNat
              · rw [if_neg h2, if_pos h3] at hbc
                exact absurd hbc (by simp)
              · rw [if_neg h2, if_neg h3] at hbc
                rw [if_neg (show ¬ x.toNat < z.toNat by omega),
                  if_neg (show ¬ z.toNat < x.toNat by omega)]
                exact ih ys zs hab hbc

theorem strLe_total (a b : String) : strLe a b = true ∨ strLe b a = true :=
  charListLe_total a.data b.data

theorem strLe_trans {a b c : String} (h1 : strLe a b = true) (h2 : strLe b c = true) :
    strLe a c = true :=
  charListLe_trans a.data b.data c.data h1 h2

theorem mem_insertSorted (x y : String) :
    ∀ l, y ∈ insertSorted x l ↔ y = x ∨ y ∈ l := by
  intro l
  induction l with
  | nil => simp [insertSorted]
  | cons z zs ih =>
    unfold insertSorted
    by_cases h : strLe x z = true
    · rw [if_pos h]
      simp
    · rw [if_neg h]
      simp only [List.mem_cons, ih]
      tauto

theorem pairwise_insertSorted (x : String) :
    ∀ l, l.Pairwise (fun a b => strLe a b = true) →
      (insertSorted x l).Pairwise (fun a b => strLe a b = true) := by
  intro l
  induction l with
  | nil => intro _; simp [insertSorted]
  | cons y ys ih =>
    intro h
    rw [List.pairwise_cons] at h
    obtain ⟨hy, hys⟩ := h
    unfold insertSorted
    by_cases hxy : strLe x y = true
    · rw [if_pos hxy]
      refine List.pairwise_cons.mpr ⟨?_, List.pairwise_cons.mpr ⟨hy, hys⟩⟩
      intro z hz
      rcases List.mem_cons.mp hz with rfl | hz
      · exact hxy
      · exact strLe_trans hxy (hy z hz)
    · rw [if_neg hxy]
      refine List.pairwise_cons.mpr ⟨?_, ih hys⟩
      intro z hz
      rcases (mem_insertSorted x z ys).mp hz with rfl | hz
      · rcases strLe_total z y with h | h
        · exact absurd h hxy
        · exact h
      · exact hy z hz

theorem pairwise_sortStrings (l : List String) :
    (sortStrings l).Pairwise (fun a b => strLe a b = true) := by
  induction l with
  | nil => simp [sortStrings]
  | cons x xs ih => exact pairwise_insertSorted x (sortStrings xs) ih

theorem find_object_files_sorted (fs : FS) (base : List String) :
    (find_object_files fs base).Pairwise
      (fun p q => strLe (p.getLastD "") (q.getLastD "") = true) := by
  unfold find_object_files
  split
  · simp
  · dsimp only
    rw [List.pairwise_map]
    refine List.Pairwise.imp ?_ (pairwise_sortStrings _)
    intro a b hab
    simpa [List.getLastD_concat] using hab

/-- C8: for any directory, `scan` returns exactly the well-formed
descriptor files (one entry per file whose descriptor loads, none for a
malformed file), ordered lexicographically by filename, and scanning a
non-existent directory yields the empty sequence. -/
theorem scan_policy (fs : FS) (base : List String) :
    (fs.isDir base = false → scan fs base = []) ∧
    (scan fs base).length =
      ((find_object_files fs base).filter
        (fun p => (load_object_descriptor fs p).isSome)).length ∧
    (∀ p d, ((p, d) ∈ scan fs base ↔
      p ∈ find_object_files fs base ∧ load_object_descriptor fs p = some d)) ∧
    ((scan fs base).map Prod.fst).Pairwise
      (fun p q => strLe (p.getLastD "") (q.getLastD "") = true) := by
  refine ⟨?_, ?_, fun p d => mem_scan_iff fs base p d, ?_⟩
  · intro h
    unfold scan find_object_files
    rw [if_pos h]
    rfl
  · have h := filterMap_pair_fst (find_object_files fs base) (load_object_descriptor fs)
    unfold scan
    rw [← h, List.length_map]
  · have h := filterMap_pair_fst (find_object_files fs base) (load_object_descriptor fs)
    have hs : (scan fs base).map Prod.fst =
        (find_object_files fs base).filter
          (fun p => (load_object_descriptor fs p).isSome) := h
    rw [hs]
    exact (find_object_files_sorted fs base).sublist (List.filter_sublist _)

/-- C8 witness: scanning a missing directory yields nothing, and a
directory with one well-formed and one malformed descriptor yields
exactly the well-formed one. -/
theorem scan_policy_witness :
    scan ⟨[], []⟩ ["x"] = [] ∧
    (["d", "a.json"], [("title", JVal.str "A")]) ∈
      scan ⟨[(["d", "a.json"], .json (.obj [("title", .str "A")])),
             (["d", "b.json"], .invalid)], [["d"]]⟩ ["d"] :=
  ⟨(scan_policy ⟨[], []⟩ ["x"]).1 rfl,
   ((scan_policy ⟨[(["d", "a.json"], .json (.obj [("title", .str "A")])),
       (["d", "b.json"], .invalid)], [["d"]]⟩ ["d"]).2.2.1
     ["d", "a.json"] [("title", JVal.str "A")]).mpr ⟨by decide, rfl⟩⟩

/-! History-recorder lemmas. -/

theorem stem_ext_ne {stem e1 e2 : String} (hne : e1 ≠ e2) : stem ++ e1 ≠ stem ++ e2 :=
  fun h => hne (string_append_left_cancel h)

theorem hd_ext_ne {hd : List String} {x y : String} (h : x ≠ y) :
    hd ++ [x] ≠ hd ++ [y] := by
  intro e
  have h2 := List.append_cancel_left e
  injection h2 with h3
  exact h h3

theorem append_singleton_ne_self (hd : List String) (x : String) : hd ++ [x] ≠ hd := by
  intro e
  have := congrArg List.length e
  simp at this

theorem writeScriptStep_read_ne (fs : FS) (shp p : List String) (c : Option String)
    (ok : Bool) (h : p ≠ shp) :
    (writeScriptStep fs shp c ok).1.read p = fs.read p := by
  unfold writeScriptStep
  cases c with
  | none => rfl
  | some s =>
    cases ok
    · rfl
    · exact FS.read_write_ne fs shp p _ h

theorem writeScriptStep_dirs (fs : FS) (shp : List String) (c : Option String) (ok : Bool) :
    (writeScriptStep fs shp c ok).1.dirs = fs.dirs := by
  unfold writeScriptStep
  cases c with
  | none => rfl
  | some s => cases ok <;> rfl

theorem writeScriptStep_isDir (fs : FS) (shp p : List String) (c : Option String) (ok : Bool) :
    (writeScriptStep fs shp c ok).1.isDir p = fs.isDir p := by
  simp [FS.isDir, writeScriptStep_dirs]

theorem writeScriptStep_pathExists_ne (fs : FS) (shp p : List String) (c : Option String)
    (ok : Bool) (h : p ≠ shp) :
    (writeScriptStep fs shp c ok).1.pathExists p = fs.pathExists p := by
  unfold FS.pathExists
  rw [writeScriptStep_isDir]
  unfold FS.isFile
  rw [writeScriptStep_read_ne fs shp p c ok h]

theorem record_history_noop_title (fs : FS) (root : List String)
    (entry : List (String × JVal)) (ts : String) (eff : WriteOracle)
    (h : ∀ t, entry.lookup "title" ≠ some (.str t)) :
    record_history fs root entry ts eff = fs := by
  unfold record_history
  cases hl : entry.lookup "title" with
  | none => rfl
  | some j =>
    cases j with
    | str t => exact absurd hl (h t)
    | num n => rfl
    | bool b => rfl
    | null => rfl
    | arr l => rfl
    | obj o => rfl

theorem record_history_noop_icon (fs : FS) (root : List String)
    (entry : List (String × JVal)) (ts : String) (eff : WriteOracle)
    (h : ∀ i, entry.lookup "icon" ≠ some (.str i)) :
    record_history fs root entry ts eff = fs := by
  unfold record_history
  cases hl : entry.lookup "title" with
  | none => rfl
  | some j =>
    cases j with
    | str t =>
      cases hl2 : entry.lookup "icon" with
      | none => rfl
      | some j2 =>
        cases j2 with
        | str i => exact absurd hl2 (h i)
        | num n => rfl
        | bool b => rfl
        | null => rfl
        | arr l => rfl
        | obj o => rfl
    | num n => rfl
    | bool b => rfl
    | null => rfl
    | arr l => rfl
    | obj o => rfl

theorem record_history_mkdir_fail (fs : FS) (root : List String)
    (entry : List (String × JVal)) (ts title icon : String) (eff : WriteOracle)
    (ht : entry.lookup "title" = some (.str title))
    (hi : entry.lookup "icon" = some (.str icon))
    (hm : eff.mkdirOk = false) :
    record_history fs root entry ts eff = fs := by
  unfold record_history
  rw [ht, hi]
  exact if_pos hm

/-- Canonical form of a `record_history` call whose guards pass and
whose descriptor write succeeds. -/
theorem record_history_json_ok (fs : FS) (root : List String)
    (entry : List (String × JVal)) (ts title icon : String) (eff : WriteOracle)
    (ht : entry.lookup "title" = some (.str title))
    (hi : entry.lookup "icon" = some (.str icon))
    (hm : eff.mkdirOk = true) (hj : eff.jsonWriteOk = true) :
    record_history fs root entry ts eff =
      (let hd := root ++ ["History"]
       let fs1 := fs.mkdir hd
       let stem := chooseStem fs1 hd ts
       let fs2 := (writeScriptStep fs1 (hd ++ [stem ++ ".sh"])
         (scriptContent entry) eff.shWriteOk).1
       let fs3 := fs2.write (hd ++ [stem ++ ".json"])
         (.json (.obj (history_descriptor title icon stem
           ((scriptContent entry).isSome && eff.shWriteOk))))
       if eff.htmlWriteOk = false then fs3
       else fs3.write (hd ++ [stem ++ ".html"])
         (.text (history_html title (entry.lookup "options")))) := by
  have hw : ∀ (fs1 : FS) (shp : List String),
      ((writeScriptStep fs1 shp (scriptContent entry) eff.shWriteOk).2 &&
        (writeScriptStep fs1 shp (scriptContent entry) eff.shWriteOk).1.isFile shp) =
      ((scriptContent entry).isSome && eff.shWriteOk) := by
    intro fs1 shp
    cases hsc : scriptContent entry <;> cases hso : eff.shWriteOk <;>
      simp [writeScriptStep, FS.isFile_write_self]
  unfold record_history
  rw [ht, hi]
  dsimp only
  conv_lhs => rw [if_neg (show ¬ eff.mkdirOk = false by simp [hm])]
  conv_lhs => rw [if_neg (show ¬ eff.jsonWriteOk = false by simp [hj])]
  conv_lhs => rw [hw]

/-- C4: the recorded descriptor has the exact shape
`{title, icon, details: "<stem>.html"}` and carries
`openaction {command: "shell", arg0: "<stem>.sh"}` precisely when the
replay script was written in the preceding step (a script was supplied
and its write succeeded); when `title` or `icon` is missing or not a
string the whole call is a no-op. -/
theorem history_descriptor_shape (fs : FS) (root : List String)
    (entry : List (String × JVal)) (ts : String) (eff : WriteOracle) :
    ((∀ t, entry.lookup "title" ≠ some (.str t)) →
      record_history fs root entry ts eff = fs) ∧
    ((∀ i, entry.lookup "icon" ≠ some (.str i)) →
      record_history fs root entry ts eff = fs) ∧
    (∀ title icon,
      entry.lookup "title" = some (.str title) →
      entry.lookup "icon" = some (.str icon) →
      eff.mkdirOk = true → eff.jsonWriteOk = true →
      (record_history fs root entry ts eff).read
          ((root ++ ["History"]) ++
            [chooseStem (fs.mkdir (root ++ ["History"])) (root ++ ["History"]) ts ++ ".json"]) =
        some (.json (.obj (history_descriptor title icon
          (chooseStem (fs.mkdir (root ++ ["History"])) (root ++ ["History"]) ts)
          ((scriptContent entry).isSome && eff.shWriteOk))))) := by
  refine ⟨record_history_noop_title fs root entry ts eff,
    record_history_noop_icon fs root entry ts eff, ?_⟩
  intro title icon ht hi hm hj
  rw [record_history_json_ok fs root entry ts title icon eff ht hi hm hj]
  dsimp only
  cases hh : eff.htmlWriteOk
  · rw [if_pos rfl]
    exact FS.read_write_self _ _ _
  · rw [if_neg (by simp)]
    rw [FS.read_write_ne _ _ _ _ (hd_ext_ne (stem_ext_ne (by decide)))]
    exact FS.read_write_self _ _ _

/-- C4 witness: recording an entry with a replay script produces the
descriptor with the `openaction` replay block; the descriptor of an
entry with a numeric title is never written (no-op). -/
theorem history_descriptor_shape_witness :
    (record_history ⟨[], []⟩ ["r"]
        [("title", .str "T"), ("icon", .str "I"), ("replay_shell_script", .str "run")]
        "20250101-120000" ⟨true, true, true, true⟩).read
        (["r", "History"] ++ ["20250101-120000.json"]) =
      some (.json (.obj [("title", .str "T"), ("icon", .str "I"),
        ("details", .str "20250101-120000.html"),
        ("openaction", .obj [("command", .str "shell"),
          ("arg0", .str "20250101-120000.sh")])])) ∧
    record_history ⟨[], []⟩ ["r"] [("title", .num 3), ("icon", .str "I")]
      "20250101-120000" ⟨true, true, true, true⟩ = ⟨[], []⟩ := by
  constructor
  · have h := (history_descriptor_shape ⟨[], []⟩ ["r"]
      [("title", .str "T"), ("icon", .str "I"), ("replay_shell_script", .str "run")]
      "20250101-120000" ⟨true, true, true, true⟩).2.2 "T" "I" rfl rfl rfl rfl
    exact h
  · exact (history_descriptor_shape ⟨[], []⟩ ["r"]
      [("title", .num 3), ("icon", .str "I")] "20250101-120000"
      ⟨true, true, true, true⟩).1 (fun t h => by cases h)

theorem writeScriptStep_fail (fs : FS) (shp : List String) (c : Option String) :
    writeScriptStep fs shp c false = (fs, false) := by
  cases c <;> rfl

theorem read_none_of_pathExists_false {fs : FS} {p : List String}
    (h : fs.pathExists p = false) : fs.read p = none := by
  unfold FS.pathExists FS.isFile at h
  cases hr : fs.read p
  · rfl
  · rw [hr] at h
    simp at h

theorem historyStem_free (fs : FS) (root : List String) (ts : String) :
    (fs.mkdir (historyDir root)).pathExists
      (historyDir root ++ [historyStem fs root ts ++ ".json"]) = false :=
  chosenIdx_free (fs.mkdir (historyDir root)) (historyDir root) ts

/-- Canonical form of a `record_history` call whose guards pass but
whose descriptor write fails: only the script step can have happened
(outer blanket `except` aborts the page write). -/
theorem record_history_json_fail (fs : FS) (root : List String)
    (entry : List (String × JVal)) (ts title icon : String) (eff : WriteOracle)
    (ht : entry.lookup "title" = some (.str title))
    (hi : entry.lookup "icon" = some (.str icon))
    (hm : eff.mkdirOk = true) (hj : eff.jsonWriteOk = false) :
    record_history fs root entry ts eff =
      (writeScriptStep (fs.mkdir (historyDir root))
        (historyDir root ++ [historyStem fs root ts ++ ".sh"])
        (scriptContent entry) eff.shWriteOk).1 := by
  unfold record_history
  rw [ht, hi]
  dsimp only
  conv_lhs => rw [if_neg (show ¬ eff.mkdirOk = false by simp [hm])]
  conv_lhs => rw [if_pos hj]
  rfl

/-- C3 counterexample: the claim predicts that an I/O failure at any
step of the triple aborts the remaining steps, so after a failed
script write no descriptor (and no page) would exist; the source
catches the script-write failure and continues ("JSON will still be
created"), so the descriptor and page are both written and only the
script is missing. -/
theorem history_abort_counterexample :
    (record_history ⟨[], []⟩ ["r"]
        [("title", .str "T"), ("icon", .str "I"), ("replay_shell_script", .str "run")]
        "20250101-120000" ⟨true, false, true, true⟩).isFile
        (["r", "History"] ++ ["20250101-120000.json"]) = true ∧
    (record_history ⟨[], []⟩ ["r"]
        [("title", .str "T"), ("icon", .str "I"), ("replay_shell_script", .str "run")]
        "20250101-120000" ⟨true, false, true, true⟩).isFile
        (["r", "History"] ++ ["20250101-120000.html"]) = true ∧
    (record_history ⟨[], []⟩ ["r"]
        [("title", .str "T"), ("icon", .str "I"), ("replay_shell_script", .str "run")]
        "20250101-120000" ⟨true, false, true, true⟩).isFile
        (["r", "History"] ++ ["20250101-120000.sh"]) = false :=
  ⟨rfl, rfl, rfl⟩

/-- C3 amended: the JSON descriptor gates visibility; it is written
after the replay script and the HTML page is written last.  A
`makedirs` failure aborts everything; a script-write failure is caught
and ignored (the descriptor - without `openaction` - and the page are
still written); a descriptor-write failure aborts the page write,
leaves an already-written script orphan in place with no rollback, and
surfaces no loadable descriptor; a page-write failure rolls back
neither the script nor the descriptor. -/
theorem history_write_failure_policy (fs : FS) (root : List String)
    (entry : List (String × JVal)) (ts title icon : String) (eff : WriteOracle)
    (ht : entry.lookup "title" = some (.str title))
    (hi : entry.lookup "icon" = some (.str icon)) :
    (eff.mkdirOk = false → record_history fs root entry ts eff = fs) ∧
    (eff.mkdirOk = true → eff.shWriteOk = false → eff.jsonWriteOk = true →
      (record_history fs root entry ts eff).read
          (historyDir root ++ [historyStem fs root ts ++ ".json"]) =
        some (.json (.obj (history_descriptor title icon (historyStem fs root ts) false))) ∧
      (record_history fs root entry ts eff).read
          (historyDir root ++ [historyStem fs root ts ++ ".sh"]) =
        fs.read (historyDir root ++ [historyStem fs root ts ++ ".sh"])) ∧
    (eff.mkdirOk = true → eff.jsonWriteOk = false →
      load_object_descriptor (record_history fs root entry ts eff)
          (historyDir root ++ [historyStem fs root ts ++ ".json"]) = none ∧
      (∀ c, scriptContent entry = some c → eff.shWriteOk = true →
        (record_history fs root entry ts eff).isFile
          (historyDir root ++ [historyStem fs root ts ++ ".sh"]) = true) ∧
      (record_history fs root entry ts eff).read
          (historyDir root ++ [historyStem fs root ts ++ ".html"]) =
        fs.read (historyDir root ++ [historyStem fs root ts ++ ".html"]) ∧
      (∀ d, (historyDir root ++ [historyStem fs root ts ++ ".json"], d) ∉
        scan (record_history fs root entry ts eff) (historyDir root))) ∧
    (eff.mkdirOk = true → eff.jsonWriteOk = true → eff.htmlWriteOk = false →
      (record_history fs root entry ts eff).read
          (historyDir root ++ [historyStem fs root ts ++ ".json"]) =
        some (.json (.obj (history_descriptor title icon (historyStem fs root ts)
          ((scriptContent entry).isSome && eff.shWriteOk)))) ∧
      (∀ c, scriptContent entry = some c → eff.shWriteOk = true →
        (record_history fs root entry ts eff).read
          (historyDir root ++ [historyStem fs root ts ++ ".sh"]) =
        some (.text c))) := by
  refine ⟨record_history_mkdir_fail fs root entry ts title icon eff ht hi, ?_, ?_, ?_⟩
  · intro hm hs hj
    unfold historyStem historyDir
    rw [record_history_json_ok fs root entry ts title icon eff ht hi hm hj]
    dsimp only
    rw [hs, Bool.and_false]
    constructor
    · cases hh : eff.htmlWriteOk
      · rw [if_pos rfl]
        exact FS.read_write_self _ _ _
      · rw [if_neg (by simp)]
        rw [FS.read_write_ne _ _ _ _ (hd_ext_ne (stem_ext_ne (by decide)))]
        exact FS.read_write_self _ _ _
    · cases hh : eff.htmlWriteOk
      · rw [if_pos rfl, FS.read_write_ne _ _ _ _ (hd_ext_ne (stem_ext_ne (by decide))),
          writeScriptStep_fail]
        exact FS.read_mkdir _ _ _
      · rw [if_neg (by simp),
          FS.read_write_ne _ _ _ _ (hd_ext_ne (stem_ext_ne (by decide))),
          FS.read_write_ne _ _ _ _ (hd_ext_ne (stem_ext_ne (by decide))),
          writeScriptStep_fail]
        exact FS.read_mkdir _ _ _
  · intro hm hj
    unfold historyStem historyDir
    rw [show record_history fs root entry ts eff =
      (writeScriptStep (fs.mkdir (root ++ ["History"]))
        (root ++ ["History"] ++ [chooseStem (fs.mkdir (root ++ ["History"])) (root ++ ["History"]) ts ++ ".sh"])
        (scriptContent entry) eff.shWriteOk).1 from
      record_history_json_fail fs root entry ts title icon eff ht hi hm hj]
    have hfree : (fs.mkdir (root ++ ["History"])).pathExists
        (root ++ ["History"] ++ [chooseStem (fs.mkdir (root ++ ["History"])) (root ++ ["History"]) ts ++ ".json"]) = false :=
      historyStem_free fs root ts
    have hread : (writeScriptStep (fs.mkdir (root ++ ["History"]))
        (root ++ ["History"] ++ [chooseStem (fs.mkdir (root ++ ["History"])) (root ++ ["History"]) ts ++ ".sh"])
        (scriptContent entry) eff.shWriteOk).1.read
        (root ++ ["History"] ++ [chooseStem (fs.mkdir (root ++ ["History"])) (root ++ ["History"]) ts ++ ".json"]) = none := by
      rw [writeScriptStep_read_ne _ _ _ _ _ (hd_ext_ne (stem_ext_ne (by decide)))]
      exact read_none_of_pathExists_false hfree
    refine ⟨?_, ?_, ?_, ?_⟩
    · unfold load_object_descriptor
      rw [hread]
    · intro c hc hs
      rw [hc, hs]
      show ((fs.mkdir (root ++ ["History"])).write
        (root ++ ["History"] ++ [chooseStem (fs.mkdir (root ++ ["History"])) (root ++ ["History"]) ts ++ ".sh"])
        (.text c)).isFile _ = true
      exact FS.isFile_write_self _ _ _
    · rw [writeScriptStep_read_ne _ _ _ _ _ (hd_ext_ne (stem_ext_ne (by decide)))]
      exact FS.read_mkdir _ _ _
    · intro d hmem
      have h2 := ((mem_scan_iff _ _ _ _).mp hmem).2
      unfold load_object_descriptor at h2
      rw [hread] at h2
      cases h2
  · intro hm hj hh
    unfold historyStem historyDir
    rw [record_history_json_ok fs root entry ts title icon eff ht hi hm hj]
    dsimp only
    rw [if_pos hh]
    constructor
    · exact FS.read_write_self _ _ _
    · intro c hc hso
      rw [FS.read_write_ne _ _ _ _ (hd_ext_ne (stem_ext_ne (by decide))), hc, hso]
      show ((fs.mkdir (root ++ ["History"])).write
        (root ++ ["History"] ++ [chooseStem (fs.mkdir (root ++ ["History"])) (root ++ ["History"]) ts ++ ".sh"])
        (.text c)).read _ = _
      exact FS.read_write_self _ _ _

/-- C3 amended witness: with the descriptor write failing, the already
written script is left as an orphan and no loadable descriptor
exists at the chosen descriptor path. -/
theorem history_write_failure_policy_witness :
    load_object_descriptor (record_history ⟨[], []⟩ ["r"]
        [("title", .str "T"), ("icon", .str "I"), ("replay_shell_script", .str "run")]
        "20250101-120000" ⟨true, true, false, true⟩)
      (["r", "History"] ++ ["20250101-120000.json"]) = none ∧
    (record_history ⟨[], []⟩ ["r"]
        [("title", .str "T"), ("icon", .str "I"), ("replay_shell_script", .str "run")]
        "20250101-120000" ⟨true, true, false, true⟩).isFile
      (["r", "History"] ++ ["20250101-120000.sh"]) = true := by
  have h := (history_write_failure_policy ⟨[], []⟩ ["r"]
    [("title", .str "T"), ("icon", .str "I"), ("replay_shell_script", .str "run")]
    "20250101-120000" "T" "I" ⟨true, true, false, true⟩ rfl rfl).2.2.1 rfl rfl
  exact ⟨h.1, h.2.1 "run\n" rfl rfl⟩

theorem data_ne_nil_of_ne_empty {s : String} (h : s ≠ "") : s.data ≠ [] := by
  intro e
  exact h (String.ext e)

theorem append_ext_ne_empty {s ext : String} (h : ext.data ≠ []) : (s ++ ext) ≠ "" := by
  intro e
  have h2 := congrArg String.data e
  rw [String.data_append] at h2
  rcases List.append_eq_nil.mp h2 with ⟨_, h3⟩
  exact h h3

theorem no_slash_append {s t : String} (hs : '/' ∉ s.data) (ht : '/' ∉ t.data) :
    '/' ∉ (s ++ t).data := by
  rw [String.data_append]
  simp only [List.mem_append]
  rintro (h | h)
  · exact hs h
  · exact ht h

theorem scriptContent_eq (entry : List (String × JVal)) (script : String)
    (hrs : entry.lookup "replay_shell_script" = some (.str script))
    (hnb : nonBlank script = true) :
    scriptContent entry = some (ensureNL script) := by
  unfold scriptContent
  rw [hrs]
  dsimp only
  rw [if_pos hnb]

theorem historyStem_no_slash {ts : String} (h : '/' ∉ ts.data)
    (fs : FS) (root : List String) : '/' ∉ (historyStem fs root ts).data :=
  stemName_no_slash h _

theorem historyStem_ne_empty {ts : String} (h : ts ≠ "")
    (fs : FS) (root : List String) : historyStem fs root ts ≠ "" := by
  intro e
  exact stemName_data_ne_nil (data_ne_nil_of_ne_empty h)
    (chosenIdx (fs.mkdir (historyDir root)) (historyDir root) ts) (congrArg String.data e)

/-- C1: round-trip through the history subsystem — the descriptor
written for a valid entry loads back with the entry's `title` and
`icon`, its `openaction.arg0` (present here because a replay script was
supplied) resolves via the Path Resolver against the history directory
to exactly the script path, and that path holds exactly the script text
the recorder wrote. -/
theorem history_roundtrip (fs : FS) (root : List String)
    (entry : List (String × JVal)) (ts title icon script : String)
    (ht : entry.lookup "title" = some (.str title))
    (hi : entry.lookup "icon" = some (.str icon))
    (hrs : entry.lookup "replay_shell_script" = some (.str script))
    (hnb : nonBlank script = true)
    (hts1 : '/' ∉ ts.data)
    (hroot : ∀ s ∈ root, goodSeg s) :
    load_object_descriptor (record_history fs root entry ts ⟨true, true, true, true⟩)
        (historyDir root ++ [historyStem fs root ts ++ ".json"]) =
      some (history_descriptor title icon (historyStem fs root ts) true) ∧
    (history_descriptor title icon (historyStem fs root ts) true).lookup "title" =
      some (.str title) ∧
    (history_descriptor title icon (historyStem fs root ts) true).lookup "icon" =
      some (.str icon) ∧
    (history_descriptor title icon (historyStem fs root ts) true).lookup "openaction" =
      some (.obj [("command", .str "shell"),
        ("arg0", .str (historyStem fs root ts ++ ".sh"))]) ∧
    resolve_icon_path (record_history fs root entry ts ⟨true, true, true, true⟩)
        (historyDir root) (some (historyStem fs root ts ++ ".sh")) =
      some (historyDir root ++ [historyStem fs root ts ++ ".sh"]) ∧
    (record_history fs root entry ts ⟨true, true, true, true⟩).read
        (historyDir root ++ [historyStem fs root ts ++ ".sh"]) =
      some (.text (ensureNL script)) := by
  have hsc := scriptContent_eq entry script hrs hnb
  have hwopen : ((scriptContent entry).isSome &&
      (WriteOracle.mk true true true true).shWriteOk) = true := by
    rw [hsc]
    rfl
  have hrec : record_history fs root entry ts ⟨true, true, true, true⟩ =
      ((((fs.mkdir (historyDir root)).write
          (historyDir root ++ [historyStem fs root ts ++ ".sh"])
          (.text (ensureNL script))).write
          (historyDir root ++ [historyStem fs root ts ++ ".json"])
          (.json (.obj (history_descriptor title icon (historyStem fs root ts) true)))).write
          (historyDir root ++ [historyStem fs root ts ++ ".html"])
          (.text (history_html title (entry.lookup "options")))) := by
    rw [record_history_json_ok fs root entry ts title icon ⟨true, true, true, true⟩
      ht hi rfl rfl]
    dsimp only
    rw [if_neg (by simp)]
    rw [hwopen, hsc]
    rfl
  have hshread : (record_history fs root entry ts ⟨true, true, true, true⟩).read
      (historyDir root ++ [historyStem fs root ts ++ ".sh"]) =
      some (.text (ensureNL script)) := by
    rw [hrec,
      FS.read_write_ne _ _ _ _ (hd_ext_ne (stem_ext_ne (by decide))),
      FS.read_write_ne _ _ _ _ (hd_ext_ne (stem_ext_ne (by decide)))]
    exact FS.read_write_self _ _ _
  refine ⟨?_, rfl, rfl, rfl, ?_, hshread⟩
  · unfold load_object_descriptor
    rw [hrec,
      FS.read_write_ne _ _ _ _ (hd_ext_ne (stem_ext_ne (by decide))),
      FS.read_write_self]
  · have hv1 : historyStem fs root ts ++ ".sh" ≠ "" :=
      append_ext_ne_empty (by decide)
    have hv2 : '/' ∉ (historyStem fs root ts ++ ".sh").data :=
      no_slash_append (historyStem_no_slash hts1 fs root) (by decide)
    have hv3 : isAbsStr (historyStem fs root ts ++ ".sh") = false :=
      isAbsStr_false_of_no_slash hv2
    have hv4 : segments (historyStem fs root ts ++ ".sh") =
        [historyStem fs root ts ++ ".sh"] := segments_single hv2 hv1
    have hv5 : normalize (historyDir root ++ [historyStem fs root ts ++ ".sh"]) =
        historyDir root ++ [historyStem fs root ts ++ ".sh"] := by
      apply normalize_eq_self
      intro s hs
      rcases List.mem_append.mp hs with h | h
      · rcases List.mem_append.mp h with h | h
        · exact hroot s h
        · simp only [List.mem_singleton] at h
          subst h
          exact ⟨by decide, by decide, by decide⟩
      · simp only [List.mem_singleton] at h
        subst h
        exact goodSeg_append_ext (by decide)
    have hfile : (record_history fs root entry ts ⟨true, true, true, true⟩).isFile
        (historyDir root ++ [historyStem fs root ts ++ ".sh"]) = true := by
      unfold FS.isFile
      rw [hshread]
      rfl
    simp only [resolve_icon_path]
    rw [if_neg hv1]
    rw [hv3]
    simp only [Bool.false_eq_true, if_false]
    rw [hv4, hv5, hfile]
    rw [if_pos rfl]

/-- C1 witness: a concrete recorded entry round-trips - the descriptor
loads, its fields match, the `arg0` resolves to the written script. -/
theorem history_roundtrip_witness :
    load_object_descriptor (record_history ⟨[], []⟩ ["r"]
        [("title", .str "T"), ("icon", .str "I"), ("replay_shell_script", .str "run")]
        "20250101-120000" ⟨true, true, true, true⟩)
        (["r", "History"] ++ ["20250101-120000.json"]) =
      some [("title", .str "T"), ("icon", .str "I"),
        ("details", .str "20250101-120000.html"),
        ("openaction", .obj [("command", .str "shell"),
          ("arg0", .str "20250101-120000.sh")])] ∧
    resolve_icon_path (record_history ⟨[], []⟩ ["r"]
        [("title", .str "T"), ("icon", .str "I"), ("replay_shell_script", .str "run")]
        "20250101-120000" ⟨true, true, true, true⟩)
        ["r", "History"] (some "20250101-120000.sh") =
      some ["r", "History", "20250101-120000.sh"] ∧
    (record_history ⟨[], []⟩ ["r"]
        [("title", .str "T"), ("icon", .str "I"), ("replay_shell_script", .str "run")]
        "20250101-120000" ⟨true, true, true, true⟩).read
        ["r", "History", "20250101-120000.sh"] = some (.text "run\n") := by
  have h := history_roundtrip ⟨[], []⟩ ["r"]
    [("title", .str "T"), ("icon", .str "I"), ("replay_shell_script", .str "run")]
    "20250101-120000" "T" "I" "run" rfl rfl rfl rfl (by decide)
    (by intro s hs; simp only [List.mem_singleton] at hs; subst hs
        exact ⟨by decide, by decide, by decide⟩)
  exact ⟨h.1, h.2.2.2.2.1, h.2.2.2.2.2⟩

theorem stemName_one (ts : String) : stemName ts 1 = ts ++ "-1" := by
  show (ts ++ "-") ++ Nat.repr 1 = ts ++ "-1"
  rw [String.append_assoc]
  rfl

/-- C2: the recorder's stem probe is monotonic and gap-free - it stops
at the first free index, so the stem is the timestamp itself when free
and otherwise the first free `ts-k`; in particular two record calls
with valid title and icon in the same second (same timestamp, both
stems initially free) produce the two distinct stems `ts` and `ts-1`
with two independently loadable descriptor files. -/
theorem history_collision_probe (fs : FS) (root : List String)
    (entry : List (String × JVal)) (ts title icon : String) (eff : WriteOracle) :
    (∀ (hd : List String) (m : Nat),
      (∀ j, j < m → fs.pathExists (candJson hd ts j) = true) →
      fs.pathExists (candJson hd ts m) = false →
      chooseStem fs hd ts = stemName ts m) ∧
    (entry.lookup "title" = some (.str title) →
      entry.lookup "icon" = some (.str icon) →
      entry.lookup "replay_shell_script" = none →
      eff.mkdirOk = true → eff.jsonWriteOk = true →
      fs.pathExists (historyDir root ++ [ts ++ ".json"]) = false →
      fs.pathExists (historyDir root ++ [ts ++ "-1.json"]) = false →
      ∀ fs₁ fs₂, fs₁ = record_history fs root entry ts eff →
        fs₂ = record_history fs₁ root entry ts eff →
        (historyDir root ++ [ts ++ ".json"]) ≠ (historyDir root ++ [ts ++ "-1.json"]) ∧
        fs₁.isFile (historyDir root ++ [ts ++ ".json"]) = true ∧
        fs₁.isFile (historyDir root ++ [ts ++ "-1.json"]) = false ∧
        (load_object_descriptor fs₂ (historyDir root ++ [ts ++ ".json"])).isSome = true ∧
        (load_object_descriptor fs₂
          (historyDir root ++ [ts ++ "-1.json"])).isSome = true) := by
  constructor
  · intro hd m h1 h2
    unfold chooseStem
    rw [chosenIdx_spec fs hd ts m h1 h2]
  · intro ht hi hrs hm hj h0 h1 fs₁ fs₂ he₁ he₂
    unfold historyDir at h0 h1 ⊢
    have hsc : scriptContent entry = none := by
      unfold scriptContent
      rw [hrs]
    have hne1 : (root ++ ["History"]) ++ [ts ++ "-1.json"] ≠
        (root ++ ["History"]) ++ [ts ++ ".json"] := hd_ext_ne (stem_ext_ne (by decide))
    have hne2 : (root ++ ["History"]) ++ [ts ++ "-1.json"] ≠
        (root ++ ["History"]) ++ [ts ++ ".html"] := hd_ext_ne (stem_ext_ne (by decide))
    have hne3 : ((root ++ ["History"]) ++ [ts ++ ".json"]) ≠
        ((root ++ ["History"]) ++ [(ts ++ "-1") ++ ".json"]) := by
      apply hd_ext_ne
      rw [String.append_assoc]
      exact stem_ext_ne (by decide)
    have hne4 : ((root ++ ["History"]) ++ [ts ++ ".json"]) ≠
        ((root ++ ["History"]) ++ [(ts ++ "-1") ++ ".html"]) := by
      apply hd_ext_ne
      rw [String.append_assoc]
      exact stem_ext_ne (by decide)
    have hne5 : ((root ++ ["History"]) ++ [(ts ++ "-1") ++ ".json"]) ≠
        ((root ++ ["History"]) ++ [(ts ++ "-1") ++ ".html"]) :=
      hd_ext_ne (stem_ext_ne (by decide))
    have hfree₁ : (fs.mkdir (root ++ ["History"])).pathExists
        (candJson (root ++ ["History"]) ts 0) = false := by
      show (fs.mkdir (root ++ ["History"])).pathExists
        ((root ++ ["History"]) ++ [ts ++ ".json"]) = false
      rw [FS.pathExists_mkdir_ne _ _ _ (append_singleton_ne_self _ _)]
      exact h0
    have hstem₁ : chooseStem (fs.mkdir (root ++ ["History"])) (root ++ ["History"]) ts =
        ts := by
      unfold chooseStem
      rw [chosenIdx_spec _ _ _ 0 (fun j hj => absurd hj (by omega)) hfree₁]
      rfl
    have hrec₁ : fs₁ =
        (let fs3 := (fs.mkdir (root ++ ["History"])).write
          ((root ++ ["History"]) ++ [ts ++ ".json"])
          (.json (.obj (history_descriptor title icon ts false)))
        if eff.htmlWriteOk = false then fs3
        else fs3.write ((root ++ ["History"]) ++ [ts ++ ".html"])
          (.text (history_html title (entry.lookup "options")))) := by
      rw [he₁, record_history_json_ok fs root entry ts title icon eff ht hi hm hj]
      dsimp only
      rw [hsc, hstem₁]
      rfl
    have hread₁ : fs₁.read ((root ++ ["History"]) ++ [ts ++ ".json"]) =
        some (.json (.obj (history_descriptor title icon ts false))) := by
      rw [hrec₁]
      dsimp only
      cases hh : eff.htmlWriteOk
      · rw [if_pos rfl]
        exact FS.read_write_self _ _ _
      · rw [if_neg (by simp),
          FS.read_write_ne _ _ _ _ (hd_ext_ne (stem_ext_ne (by decide)))]
        exact FS.read_write_self _ _ _
    have hfs₁json : fs₁.isFile ((root ++ ["History"]) ++ [ts ++ ".json"]) = true := by
      unfold FS.isFile
      rw [hread₁]
      rfl
    have hfs₁path : fs₁.pathExists ((root ++ ["History"]) ++ [ts ++ "-1.json"]) = false := by
      rw [hrec₁]
      dsimp only
      cases hh : eff.htmlWriteOk
      · rw [if_pos rfl, FS.pathExists_write_ne _ _ _ _ hne1,
          FS.pathExists_mkdir_ne _ _ _ (append_singleton_ne_self _ _)]
        exact h1
      · rw [if_neg (by simp), FS.pathExists_write_ne _ _ _ _ hne2,
          FS.pathExists_write_ne _ _ _ _ hne1,
          FS.pathExists_mkdir_ne _ _ _ (append_singleton_ne_self _ _)]
        exact h1
    have hfs₁none : fs₁.isFile ((root ++ ["History"]) ++ [ts ++ "-1.json"]) = false := by
      unfold FS.pathExists at hfs₁path
      cases hx : fs₁.isFile ((root ++ ["History"]) ++ [ts ++ "-1.json"])
      · rfl
      · rw [hx] at hfs₁path
        simp at hfs₁path
    have hfs₁cand0 : fs₁.pathExists ((root ++ ["History"]) ++ [ts ++ ".json"]) = true := by
      unfold FS.pathExists
      rw [hfs₁json]
      rfl
    have hfree₂ : (fs₁.mkdir (root ++ ["History"])).pathExists
        (candJson (root ++ ["History"]) ts 1) = false := by
      have hc : candJson (root ++ ["History"]) ts 1 =
          (root ++ ["History"]) ++ [ts ++ "-1.json"] := by
        unfold candJson
        rw [stemName_one, String.append_assoc]
        rfl
      rw [hc, FS.pathExists_mkdir_ne _ _ _ (append_singleton_ne_self _ _)]
      exact hfs₁path
    have htaken₂ : ∀ j, j < 1 → (fs₁.mkdir (root ++ ["History"])).pathExists
        (candJson (root ++ ["History"]) ts j) = true := by
      intro j hj
      interval_cases j
      show (fs₁.mkdir (root ++ ["History"])).pathExists
        ((root ++ ["History"]) ++ [ts ++ ".json"]) = true
      rw [FS.pathExists_mkdir_ne _ _ _ (append_singleton_ne_self _ _)]
      exact hfs₁cand0
    have hstem₂ : chooseStem (fs₁.mkdir (root ++ ["History"])) (root ++ ["History"]) ts =
        ts ++ "-1" := by
      unfold chooseStem
      rw [chosenIdx_spec _ _ _ 1 htaken₂ hfree₂]
      exact stemName_one ts
    have hrec₂ : fs₂ =
        (let fs3 := (fs₁.mkdir (root ++ ["History"])).write
          ((root ++ ["History"]) ++ [(ts ++ "-1") ++ ".json"])
          (.json (.obj (history_descriptor title icon (ts ++ "-1") false)))
        if eff.htmlWriteOk = false then fs3
        else fs3.write ((root ++ ["History"]) ++ [(ts ++ "-1") ++ ".html"])
          (.text (history_html title (entry.lookup "options")))) := by
      rw [he₂, record_history_json_ok fs₁ root entry ts title icon eff ht hi hm hj]
      dsimp only
      rw [hsc, hstem₂]
      rfl
    have hload₁ : (load_object_descriptor fs₂
        ((root ++ ["History"]) ++ [ts ++ ".json"])).isSome = true := by
      unfold load_object_descriptor
      rw [hrec₂]
      dsimp only
      cases hh : eff.htmlWriteOk
      · rw [if_pos rfl, FS.read_write_ne _ _ _ _ hne3, FS.read_mkdir, hread₁]
        rfl
      · rw [if_neg (by simp), FS.read_write_ne _ _ _ _ hne4,
          FS.read_write_ne _ _ _ _ hne3, FS.read_mkdir, hread₁]
        rfl
    have hload₂ : (load_object_descriptor fs₂
        ((root ++ ["History"]) ++ [ts ++ "-1.json"])).isSome = true := by
      have hpath : ((root ++ ["History"]) ++ [ts ++ "-1.json"]) =
          ((root ++ ["History"]) ++ [(ts ++ "-1") ++ ".json"]) := by
        rw [String.append_assoc]
        rfl
      unfold load_object_descriptor
      rw [hrec₂, hpath]
      dsimp only
      cases hh : eff.htmlWriteOk
      · rw [if_pos rfl, FS.read_write_self]
        rfl
      · rw [if_neg (by simp), FS.read_write_ne _ _ _ _ hne5, FS.read_write_self]
        rfl
    exact ⟨fun e => hne1 e.symm, hfs₁json, hfs₁none, hload₁, hload₂⟩

/-- C2 witness: two concrete record calls with the same timestamp
produce `<ts>.json` and then `<ts>-1.json`, both loadable. -/
theorem history_collision_probe_witness :
    (record_history ⟨[], []⟩ ["r"] [("title", .str "T"), ("icon", .str "I")]
        "20250101-120000" ⟨true, true, true, true⟩).isFile
      (["r", "History"] ++ ["20250101-120000.json"]) = true ∧
    (load_object_descriptor
        (record_history
          (record_history ⟨[], []⟩ ["r"] [("title", .str "T"), ("icon", .str "I")]
            "20250101-120000" ⟨true, true, true, true⟩)
          ["r"] [("title", .str "T"), ("icon", .str "I")]
          "20250101-120000" ⟨true, true, true, true⟩)
        (["r", "History"] ++ ["20250101-120000-1.json"])).isSome = true := by
  have h := (history_collision_probe ⟨[], []⟩ ["r"]
    [("title", .str "T"), ("icon", .str "I")] "20250101-120000" "T" "I"
    ⟨true, true, true, true⟩).2 rfl rfl rfl rfl rfl rfl rfl
    (record_history ⟨[], []⟩ ["r"] [("title", .str "T"), ("icon", .str "I")]
      "20250101-120000" ⟨true, true, true, true⟩)
    (record_history
      (record_history ⟨[], []⟩ ["r"] [("title", .str "T"), ("icon", .str "I")]
        "20250101-120000" ⟨true, true, true, true⟩)
      ["r"] [("title", .str "T"), ("icon", .str "I")]
      "20250101-120000" ⟨true, true, true, true⟩) rfl rfl
  exact ⟨h.2.1, h.2.2.2.2⟩

end HPCLauncher
